import Mathlib

/-!
Verification development for the cxdb append-only conversational event
store.  The Rust source is shallowly embedded: pure state is modelled as
Lean structures, file-backed maps as association lists, fallible
operations return `Except` paired with the (possibly partially mutated)
state, and machine integers are `Nat` with an explicit `% 2 ^ 32`
wherever the source narrows with an `as u32` cast.  External
collaborators (the zstd codec, the CRC-32 and BLAKE3 digests, the
msgpack metadata decoder, serde JSON parsing) are parameters of the
definitions: the theorems hold for every instantiation satisfying the
collaborator contract stated on the parameter.
-/

namespace Cxdb

/-- Decidable equality for `Except`, needed to evaluate the embedded
operations on concrete inputs. -/
instance {ε α : Type} [DecidableEq ε] [DecidableEq α] : DecidableEq (Except ε α) := fun a b =>
  match a, b with
  | .ok x, .ok y => decidable_of_iff (x = y) (by simp)
  | .error e, .error f => decidable_of_iff (e = f) (by simp)
  | .ok _, .error _ => isFalse (by simp)
  | .error _, .ok _ => isFalse (by simp)

/-- Error taxonomy of `src/server/src/error.rs` as used by the store
(`NotFound`, `InvalidInput`, `Corrupt`, `Io`). -/
inductive StoreErr where
  | notFound (msg : String)
  | invalidInput (msg : String)
  | corrupt (msg : String)
  | ioErr (msg : String)
deriving DecidableEq, Repr

/-- Association-list lookup; models `HashMap::get`.  Insertion is done
by consing, so the most recent binding for a key shadows older ones. -/
def lookupA {κ α : Type} [DecidableEq κ] : List (κ × α) → κ → Option α
  | [], _ => none
  | (k, v) :: rest, key => if k = key then some v else lookupA rest key

/-- Association-list update in place; models `HashMap::insert` on a key
that is already present. -/
def updateA {κ α : Type} [DecidableEq κ] : List (κ × α) → κ → α → List (κ × α)
  | [], _, _ => []
  | (k, v) :: rest, key, val => if k = key then (key, val) :: rest else (k, v) :: updateA rest key val

theorem lookupA_mem {κ α : Type} [DecidableEq κ] {l : List (κ × α)} {k : κ} {v : α}
    (h : lookupA l k = some v) : (k, v) ∈ l := by
  induction l with
  | nil => simp [lookupA] at h
  | cons p rest ih =>
    obtain ⟨k', v'⟩ := p
    by_cases hk : k' = k
    · subst hk
      simp [lookupA] at h
      simp [h]
    · simp [lookupA, hk] at h
      exact List.mem_cons_of_mem _ (ih h)

/-! ## Blob store (`src/server/src/blob_store/mod.rs`)

Bytes are `Nat`s; a hash is a list of bytes.  The pack file is the list
of blob records in write order, addressed by the index an entry records
as its `offset` (the source uses the byte offset returned by seeking to
the end of the pack; both are fresh, strictly increasing addresses of
append-only writes).  The CRC-32 function is an arbitrary parameter
`crc32` applied to the serialized header plus stored bytes, mirroring
`crc32fast::Hasher` fed with `header` then `stored_bytes`. -/

abbrev Hash := List Nat

/-- `BlobCodec` discriminator (`None = 0`, `Zstd = 1`). -/
inductive BlobCodec where
  | none
  | zstd
deriving DecidableEq, Repr

def codecNat : BlobCodec → Nat
  | .none => 0
  | .zstd => 1

/-- The zstd collaborator: `encode` is `zstd::encode_all` (level 1) and
`decode` is `zstd::decode_all`; both may fail.  `decode_encode` is the
codec contract: decoding a successful encoding returns the input. -/
structure Zstd where
  encode : List Nat → Option (List Nat)
  decode : List Nat → Option (List Nat)
  decode_encode : ∀ raw comp, encode raw = some comp → decode comp = some raw

structure BlobIndexEntry where
  offset : Nat
  raw_len : Nat
  stored_len : Nat
  codec : BlobCodec
deriving DecidableEq, Repr

/-- One pack-file region: header fields, stored bytes, trailing CRC.
`stored` is the full byte region `write_all` wrote, while `raw_len` and
`stored_len` are the u32 header fields (narrowed with `as u32` by the
writer); the reader trusts `stored_len`, not the region's true
extent. -/
structure PackRecord where
  magic : Nat
  version : Nat
  codec : BlobCodec
  raw_len : Nat
  stored_len : Nat
  hash : Hash
  stored : List Nat
  crc : Nat
deriving DecidableEq, Repr

structure BlobState where
  pack : List PackRecord
  index : List (Hash × BlobIndexEntry)
deriving DecidableEq, Repr

def BlobState.empty : BlobState := { pack := [], index := [] }

def BLOB_MAGIC : Nat := 0x42534C42

def BLOB_VERSION : Nat := 1

/-- The byte sequence the CRC-32 is computed over: the serialized header
(magic, version, codec, raw length, stored length, hash) followed by the
stored bytes.  Little-endian byte splitting is abstracted to one list
element per header field. -/
def crcInput (magic version codecRaw rawLen storedLen : Nat) (hash : Hash)
    (stored : List Nat) : List Nat :=
  magic :: version :: codecRaw :: rawLen :: storedLen :: (hash ++ stored)

/-- The four little-endian bytes of a u32 value. -/
def u32Bytes (n : Nat) : List Nat :=
  [n % 256, n / 256 % 256, n / 2 ^ 16 % 256, n / 2 ^ 24 % 256]

/-- `read_u32::<LittleEndian>`: assemble the next four bytes of the
stream (0 when the stream is shorter, which the record layout below
rules out). -/
def leU32 : List Nat → Nat
  | b0 :: b1 :: b2 :: b3 :: _ => b0 + 256 * b1 + 2 ^ 16 * b2 + 2 ^ 24 * b3
  | _ => 0

theorem leU32_u32Bytes (n : Nat) : leU32 (u32Bytes n) = n % 2 ^ 32 := by
  simp only [u32Bytes, leU32]
  omega

theorem leU32_u32Bytes_append (n : Nat) (l : List Nat) :
    leU32 (u32Bytes n ++ l) = n % 2 ^ 32 := by
  simp only [u32Bytes, List.cons_append, List.nil_append, leU32]
  omega

/-- `BlobStore::put_if_absent`: returns the existing entry when the hash
is present; otherwise compresses (keeping the compressed bytes only when
strictly smaller), appends header+stored bytes+CRC to the pack and an
entry to the index. -/
def BlobStore.putIfAbsent (crc32 : List Nat → Nat) (z : Zstd) (hash : Hash)
    (raw : List Nat) (s : BlobState) : BlobIndexEntry × BlobState :=
  match lookupA s.index hash with
  | some entry => (entry, s)
  | none =>
    let sc : List Nat × BlobCodec :=
      match z.encode raw with
      | some comp =>
        if comp.length < raw.length then (comp, BlobCodec.zstd) else (raw, BlobCodec.none)
      | none => (raw, BlobCodec.none)
    let rawLen := raw.length % 2 ^ 32
    let storedLen := sc.1.length % 2 ^ 32
    let offset := s.pack.length
    let crc :=
      crc32 (crcInput BLOB_MAGIC BLOB_VERSION (codecNat sc.2) rawLen storedLen hash sc.1) % 2 ^ 32
    let record : PackRecord :=
      { magic := BLOB_MAGIC, version := BLOB_VERSION, codec := sc.2, raw_len := rawLen,
        stored_len := storedLen, hash := hash, stored := sc.1, crc := crc }
    let entry : BlobIndexEntry :=
      { offset := offset, raw_len := rawLen, stored_len := storedLen, codec := sc.2 }
    (entry, { pack := s.pack ++ [record], index := (hash, entry) :: s.index })

/-- The per-record read of `BlobStore::get`, after seeking to the
entry's offset: validate magic, version and stored hash, then read
`stored_len` bytes — the u32 header field, not the region's true
extent — followed by the next four bytes as the CRC word.  When
`stored_len` undercounts the region (its writer narrowed a length
≥ 2^32 with `as u32`), the read stops inside the stored region and the
"CRC" word is read from the middle of the data; when it overcounts the
region the read runs past the record (modelled as the I/O error
`read_exact` reports at end of file).  The CRC is then recomputed over
header plus the bytes actually read, the payload is decompressed when
the codec is zstd, and the resulting length is checked against the
recorded raw length. -/
def readBlobRecord (crc32 : List Nat → Nat) (z : Zstd) (hash : Hash) (r : PackRecord) :
    Except StoreErr (List Nat) :=
  if r.magic ≠ BLOB_MAGIC then .error (.corrupt "invalid blob magic")
  else if r.version ≠ BLOB_VERSION then .error (.corrupt "unsupported blob version")
  else if r.hash ≠ hash then .error (.corrupt "blob hash mismatch")
  else if r.stored.length < r.stored_len then .error (.ioErr "unexpected end of pack")
  else
    let storedRead := r.stored.take r.stored_len
    let crcRead := leU32 (r.stored.drop r.stored_len ++ u32Bytes r.crc)
    if crcRead ≠ crc32 (crcInput r.magic r.version (codecNat r.codec) r.raw_len r.stored_len
        r.hash storedRead) % 2 ^ 32 then
      .error (.corrupt "blob crc mismatch")
    else
      let rawE : Except StoreErr (List Nat) :=
        match r.codec with
        | .none => .ok storedRead
        | .zstd =>
          match z.decode storedRead with
          | some rb => .ok rb
          | Option.none => .error (.corrupt "zstd decode failed")
      match rawE with
      | .error e => .error e
      | .ok rawBytes =>
        if rawBytes.length % 2 ^ 32 ≠ r.raw_len then .error (.corrupt "blob length mismatch")
        else .ok rawBytes

/-- `BlobStore::get`: look up the index entry, read the pack record at
its offset, and validate and decode it. -/
def BlobStore.get (crc32 : List Nat → Nat) (z : Zstd) (hash : Hash) (s : BlobState) :
    Except StoreErr (List Nat) :=
  match lookupA s.index hash with
  | none => .error (.notFound "blob")
  | some entry =>
    match s.pack[entry.offset]? with
    | none => .error (.ioErr "unexpected end of pack")
    | some r => readBlobRecord crc32 z hash r

theorem pack_read_concat (l : List PackRecord) (r : PackRecord) :
    (l ++ [r])[l.length]? = some r := by
  simp

/-- C3 (amended): for every byte string of length below `2 ^ 32` — so
the u32 length fields of the pack header are exact — `put_if_absent`
followed by `get` returns exactly the input bytes: any such input
including the zero-byte string, whichever codec the store chose (zstd
is used only when compression strictly shrinks the stored bytes).  The
`hfresh` hypothesis captures that the hash addresses this byte string:
either the hash is new to the store, or the blob already stored under
it has these very bytes (with the collision-resistant BLAKE3 addressing
of the source, these are the only cases for `h = BLAKE3(bytes)`). -/
theorem blob_put_get_roundtrip (crc32 : List Nat → Nat) (z : Zstd) (h : Hash)
    (bytes : List Nat) (s : BlobState)
    (hsmall : bytes.length < 2 ^ 32)
    (hfresh : lookupA s.index h = none ∨ BlobStore.get crc32 z h s = .ok bytes) :
    BlobStore.get crc32 z h (BlobStore.putIfAbsent crc32 z h bytes s).2 = .ok bytes := by
  cases hlk : lookupA s.index h with
  | some entry =>
    have hget : BlobStore.get crc32 z h s = .ok bytes := by
      rcases hfresh with hnone | hok
      · rw [hlk] at hnone; cases hnone
      · exact hok
    have hstate : (BlobStore.putIfAbsent crc32 z h bytes s).2 = s := by
      simp [BlobStore.putIfAbsent, hlk]
    rw [hstate]
    exact hget
  | none =>
    -- Fresh hash: the new index entry points at the record just appended,
    -- whose u32 length fields are exact below 2 ^ 32.
    have hmod : bytes.length % 4294967296 = bytes.length := Nat.mod_eq_of_lt (by omega)
    cases henc : z.encode bytes with
    | none =>
      simp [BlobStore.putIfAbsent, hlk, henc, BlobStore.get, lookupA, pack_read_concat,
        readBlobRecord, hmod, List.take_length, List.drop_length, leU32_u32Bytes,
        leU32_u32Bytes_append]
    | some comp =>
      by_cases hlt : comp.length < bytes.length
      · have hdec := z.decode_encode bytes comp henc
        have hmodc : comp.length % 4294967296 = comp.length :=
          Nat.mod_eq_of_lt (by omega)
        simp [BlobStore.putIfAbsent, hlk, henc, hlt, BlobStore.get, lookupA, pack_read_concat,
          readBlobRecord, hmod, hmodc, List.take_length, List.drop_length, leU32_u32Bytes,
          leU32_u32Bytes_append, hdec]
      · simp [BlobStore.putIfAbsent, hlk, henc, hlt, BlobStore.get, lookupA, pack_read_concat,
          readBlobRecord, hmod, List.take_length, List.drop_length, leU32_u32Bytes,
          leU32_u32Bytes_append]

/-- A trivial instantiation of the zstd collaborator in which
compression always fails, so the store always picks the `None` codec. -/
def zstdNoComp : Zstd where
  encode := fun _ => Option.none
  decode := fun _ => Option.none
  decode_encode := by intro r c h; simp at h

theorem blob_put_get_roundtrip_witness :
    ([] : List Nat).length < 2 ^ 32 ∧
    (lookupA BlobState.empty.index [1, 2] = none ∨
      BlobStore.get (fun _ => 0) zstdNoComp [1, 2] BlobState.empty = .ok []) ∧
    BlobStore.get (fun _ => 0) zstdNoComp [1, 2]
      (BlobStore.putIfAbsent (fun _ => 0) zstdNoComp [1, 2] [] BlobState.empty).2 = .ok [] :=
  ⟨by decide, Or.inl (by decide),
   blob_put_get_roundtrip (fun _ => 0) zstdNoComp [1, 2] [] BlobState.empty (by decide)
     (Or.inl (by decide))⟩

/-- A byte string of length exactly `2 ^ 32`, written with an explicit
four-element head so the misaligned CRC word it induces is computable
symbolically. -/
def c3Big : List Nat := 0 :: 0 :: 0 :: 0 :: List.replicate (2 ^ 32 - 4) 0

/-- The index entry `put_if_absent` records for `c3Big`: both u32
length fields wrap to 0. -/
def c3Entry : BlobIndexEntry :=
  { offset := 0, raw_len := 0, stored_len := 0, codec := BlobCodec.none }

/-- The pack record `put_if_absent` writes for `c3Big` (the CRC
collaborator is the constant-0 function). -/
def c3Rec : PackRecord :=
  { magic := BLOB_MAGIC, version := BLOB_VERSION, codec := BlobCodec.none, raw_len := 0,
    stored_len := 0, hash := [5], stored := c3Big, crc := 0 }

theorem readBlobRecord_c3Rec : readBlobRecord (fun _ => 0) zstdNoComp [5] c3Rec = .ok [] := by
  unfold readBlobRecord
  simp only [c3Rec]
  rw [if_neg (by decide : ¬((BLOB_MAGIC : Nat) ≠ BLOB_MAGIC))]
  rw [if_neg (by decide : ¬((BLOB_VERSION : Nat) ≠ BLOB_VERSION))]
  rw [if_neg (by decide : ¬(([5] : List Nat) ≠ [5]))]
  rw [if_neg (Nat.not_lt_zero c3Big.length)]
  simp only [List.take_zero, List.drop_zero]
  have hcrc : leU32 (c3Big ++ u32Bytes 0) = 0 := by
    simp only [c3Big, u32Bytes, List.cons_append, leU32]
    norm_num
  rw [hcrc]
  rw [if_neg (by norm_num : ¬((0 : Nat) ≠ 0 % 2 ^ 32))]
  rw [if_neg (by norm_num : ¬(([] : List Nat).length % 2 ^ 32 ≠ 0))]

/-- The state `put_if_absent` leaves after storing a fresh blob whose
compression attempt fails (codec `None`), stated over the empty store
with the byte string abstract so the lemma instantiates at arbitrarily
long inputs without evaluating them. -/
theorem putIfAbsent_fresh_none (crc32 : List Nat → Nat) (z : Zstd) (hash : Hash)
    (raw : List Nat) (henc : z.encode raw = none) :
    (BlobStore.putIfAbsent crc32 z hash raw BlobState.empty).2 =
    { pack := [{ magic := BLOB_MAGIC, version := BLOB_VERSION, codec := BlobCodec.none,
                 raw_len := raw.length % 2 ^ 32, stored_len := raw.length % 2 ^ 32,
                 hash := hash, stored := raw,
                 crc := crc32 (crcInput BLOB_MAGIC BLOB_VERSION (codecNat BlobCodec.none)
                   (raw.length % 2 ^ 32) (raw.length % 2 ^ 32) hash raw) % 2 ^ 32 }],
      index := [(hash, { offset := 0, raw_len := raw.length % 2 ^ 32,
                         stored_len := raw.length % 2 ^ 32, codec := BlobCodec.none })] } := by
  simp only [BlobStore.putIfAbsent, BlobState.empty, lookupA, henc]
  rfl

/-- C3 counterexample to the claim as stated: storing the
`2 ^ 32`-byte string `c3Big` under the `None` codec records
`stored_len = len as u32 = 0`, so `get` reads zero stored bytes, takes
its CRC word from the first four bytes of the stored region, and — with
the CRC collaborator instantiated so the check coincidentally passes —
returns the empty byte string instead of the input (any other CRC value
fails with `Corrupt` at the misaligned word; either way the roundtrip
claimed for any input does not hold here). -/
theorem blob_put_get_big_counterexample :
    c3Big ≠ [] ∧
    BlobStore.get (fun _ => 0) zstdNoComp [5]
      (BlobStore.putIfAbsent (fun _ => 0) zstdNoComp [5] c3Big BlobState.empty).2 =
      .ok [] := by
  have hlen : c3Big.length = 2 ^ 32 := by
    show (0 :: 0 :: 0 :: 0 :: List.replicate (2 ^ 32 - 4) 0 : List Nat).length = 2 ^ 32
    rw [List.length_cons, List.length_cons, List.length_cons, List.length_cons,
      List.length_replicate]
    omega
  have hlenmod : c3Big.length % 2 ^ 32 = 0 := by
    rw [hlen]
    exact Nat.mod_self _
  constructor
  · show (0 :: 0 :: 0 :: 0 :: List.replicate (2 ^ 32 - 4) 0 : List Nat) ≠ []
    exact List.cons_ne_nil _ _
  · have hput := putIfAbsent_fresh_none (fun _ => 0) zstdNoComp [5] c3Big rfl
    rw [hlenmod] at hput
    have hput2 : (BlobStore.putIfAbsent (fun _ => 0) zstdNoComp [5] c3Big BlobState.empty).2 =
        { pack := [c3Rec], index := [([5], c3Entry)] } := hput
    rw [hput2]
    have hread : BlobStore.get (fun _ => 0) zstdNoComp [5]
        { pack := [c3Rec], index := [([5], c3Entry)] } =
        readBlobRecord (fun _ => 0) zstdNoComp [5] c3Rec := by
      simp only [BlobStore.get, lookupA, if_true, c3Entry, List.getElem?_cons_zero]
    rw [hread]
    exact readBlobRecord_c3Rec

/-! ## Turn store (`src/server/src/turn_store/mod.rs`)

The in-memory maps (`turns`, `turn_meta`, `heads`) and the id counters
are modelled; the append-only log/idx/meta/heads files mirror those maps
record for record, so the maps are the observable state.  Timestamps
(`now_unix_ms`) are passed explicitly. -/

structure TurnRecord where
  turn_id : Nat
  parent_turn_id : Nat
  depth : Nat
  codec : Nat
  type_tag : Nat
  payload_hash : Hash
  flags : Nat
  created_at_unix_ms : Nat
deriving DecidableEq, Repr

structure TurnMeta where
  declared_type_id : String
  declared_type_version : Nat
  encoding : Nat
  compression : Nat
  uncompressed_len : Nat
deriving DecidableEq, Repr

structure ContextHead where
  context_id : Nat
  head_turn_id : Nat
  head_depth : Nat
  created_at_unix_ms : Nat
  flags : Nat
deriving DecidableEq, Repr

structure TurnStoreSt where
  turns : List (Nat × TurnRecord)
  turnMeta : List (Nat × TurnMeta)
  heads : List (Nat × ContextHead)
  nextTurnId : Nat
  nextContextId : Nat
deriving DecidableEq, Repr

def TurnStoreSt.empty : TurnStoreSt :=
  { turns := [], turnMeta := [], heads := [], nextTurnId := 1, nextContextId := 1 }

/-- `TurnStore::create_context`: allocates a fresh context id; with a
nonzero base turn, inherits that turn as the initial head. -/
def TurnStore.createContext (now : Nat) (base_turn_id : Nat) (s : TurnStoreSt) :
    Except StoreErr ContextHead × TurnStoreSt :=
  let baseE : Except StoreErr (Nat × Nat) :=
    if base_turn_id = 0 then .ok (0, 0)
    else
      match lookupA s.turns base_turn_id with
      | some turn => .ok (turn.turn_id, turn.depth)
      | none => .error (.notFound "base turn")
  match baseE with
  | .error e => (.error e, s)
  | .ok hd =>
    let context_id := s.nextContextId
    let head : ContextHead :=
      { context_id := context_id, head_turn_id := hd.1, head_depth := hd.2,
        created_at_unix_ms := now, flags := 0 }
    (.ok head, { s with nextContextId := context_id + 1, heads := (context_id, head) :: s.heads })

/-- `TurnStore::append_turn`: with a nonzero explicit parent the parent
turn must exist (anywhere in the store); with parent 0 the effective
parent is the context's current head (0 on an empty context).  Depth is
the parent's depth plus one, or 0 at a root.  The new record is written
to the log, the meta and index entries stored, and the context's head
replaced. -/
def TurnStore.resolveParent (context_id parent_turn_id : Nat) (s : TurnStoreSt) :
    Except StoreErr (Nat × Nat) :=
  if parent_turn_id ≠ 0 then
    match lookupA s.turns parent_turn_id with
    | some parent => .ok (parent.turn_id, parent.depth + 1)
    | none => .error (.notFound "parent turn")
  else
    match lookupA s.heads context_id with
    | none => .error (.notFound "context")
    | some head =>
      if head.head_turn_id = 0 then .ok (0, 0)
      else
        match lookupA s.turns head.head_turn_id with
        | some parent => .ok (parent.turn_id, parent.depth + 1)
        | none => .error (.notFound "head turn")

def TurnStore.appendTurn (now : Nat) (context_id parent_turn_id : Nat) (payload_hash : Hash)
    (encoding : Nat) (declared_type_id : String)
    (declared_type_version compression uncompressed_len : Nat)
    (s : TurnStoreSt) : Except StoreErr TurnRecord × TurnStoreSt :=
  match TurnStore.resolveParent context_id parent_turn_id s with
  | .error e => (.error e, s)
  | .ok pd =>
    let turn_id := s.nextTurnId
    let record : TurnRecord :=
      { turn_id := turn_id, parent_turn_id := pd.1, depth := pd.2, codec := encoding,
        type_tag := 0, payload_hash := payload_hash, flags := 0, created_at_unix_ms := now }
    let meta : TurnMeta :=
      { declared_type_id := declared_type_id, declared_type_version := declared_type_version,
        encoding := encoding, compression := compression, uncompressed_len := uncompressed_len }
    let head : ContextHead :=
      { context_id := context_id, head_turn_id := turn_id, head_depth := pd.2,
        created_at_unix_ms := now, flags := 0 }
    (.ok record,
      { turns := (turn_id, record) :: s.turns,
        turnMeta := (turn_id, meta) :: s.turnMeta,
        heads := (context_id, head) :: s.heads,
        nextTurnId := turn_id + 1,
        nextContextId := s.nextContextId })

/-- The backward walk of `TurnStore::get_last`: follow parent pointers
from `current` collecting at most `limit` records, newest first. -/
def TurnStore.walkBack (s : TurnStoreSt) : Nat → Nat → Except StoreErr (List TurnRecord)
  | _, 0 => .ok []
  | current, limit + 1 =>
    if current = 0 then .ok []
    else
      match lookupA s.turns current with
      | none => .error (.notFound "turn")
      | some record =>
        match TurnStore.walkBack s record.parent_turn_id limit with
        | .ok rest => .ok (record :: rest)
        | .error e => .error e

/-- `TurnStore::get_last`: walk the chain from the head backward by
parent pointers up to `limit` records and return them in forward
(ancestor-first) order. -/
def TurnStore.getLast (context_id limit : Nat) (s : TurnStoreSt) :
    Except StoreErr (List TurnRecord) :=
  match lookupA s.heads context_id with
  | none => .error (.notFound "context")
  | some head => (TurnStore.walkBack s head.head_turn_id limit).map List.reverse

/-- Key consistency of the turns map: every binding stores a record
whose `turn_id` is its key.  `append_turn` and recovery both insert
records under their own `turn_id`, so every reachable store satisfies
this. -/
abbrev TurnKeyWF (s : TurnStoreSt) : Prop :=
  ∀ p ∈ s.turns, (p.2).turn_id = p.1

/-- The pair returned by `resolve_parent` is either `(0, 0)` or the id
of an existing turn together with that turn's depth plus one. -/
theorem resolveParent_spec (context_id parent_turn_id : Nat) (s : TurnStoreSt)
    (a b : Nat) (hwf : TurnKeyWF s)
    (hres : TurnStore.resolveParent context_id parent_turn_id s = .ok (a, b)) :
    (a ≠ 0 → ∃ p, lookupA s.turns a = some p ∧ b = p.depth + 1) ∧
    (a = 0 → b = 0) := by
  unfold TurnStore.resolveParent at hres
  by_cases hpid : parent_turn_id ≠ 0
  · rw [if_pos hpid] at hres
    cases hpp : lookupA s.turns parent_turn_id with
    | none => rw [hpp] at hres; cases hres
    | some parent =>
      rw [hpp] at hres
      have hkey : parent.turn_id = parent_turn_id :=
        hwf (parent_turn_id, parent) (lookupA_mem hpp)
      have ha : a = parent.turn_id := by cases hres; rfl
      have hb : b = parent.depth + 1 := by cases hres; rfl
      constructor
      · intro _
        exact ⟨parent, by rw [ha, hkey]; exact hpp, hb⟩
      · intro h0
        rw [ha, hkey] at h0
        exact absurd h0 hpid
  · rw [if_neg hpid] at hres
    cases hh : lookupA s.heads context_id with
    | none => rw [hh] at hres; cases hres
    | some head =>
      rw [hh] at hres
      simp only at hres
      by_cases hht : head.head_turn_id = 0
      · rw [if_pos hht] at hres
        have ha : a = 0 := by cases hres; rfl
        have hb : b = 0 := by cases hres; rfl
        exact ⟨fun hne => absurd ha hne, fun _ => hb⟩
      · rw [if_neg hht] at hres
        cases hpp : lookupA s.turns head.head_turn_id with
        | none => rw [hpp] at hres; cases hres
        | some parent =>
          rw [hpp] at hres
          have hkey : parent.turn_id = head.head_turn_id :=
            hwf (head.head_turn_id, parent) (lookupA_mem hpp)
          have ha : a = parent.turn_id := by cases hres; rfl
          have hb : b = parent.depth + 1 := by cases hres; rfl
          constructor
          · intro _
            exact ⟨parent, by rw [ha, hkey]; exact hpp, hb⟩
          · intro h0
            rw [ha, hkey] at h0
            exact absurd h0 hht

/-- C2: every record produced by a successful `append_turn` has
`depth = depth(parent) + 1` when its parent turn id is nonzero (whether
the parent was supplied explicitly or resolved from the context head),
and `depth = 0` when it has no parent. -/
theorem append_turn_depth (now context_id parent_turn_id : Nat) (payload_hash : Hash)
    (encoding : Nat) (declared_type_id : String)
    (declared_type_version compression uncompressed_len : Nat)
    (s s' : TurnStoreSt) (r : TurnRecord)
    (hwf : TurnKeyWF s)
    (happ : TurnStore.appendTurn now context_id parent_turn_id payload_hash encoding
      declared_type_id declared_type_version compression uncompressed_len s = (.ok r, s')) :
    (r.parent_turn_id ≠ 0 →
      ∃ p, lookupA s.turns r.parent_turn_id = some p ∧ r.depth = p.depth + 1) ∧
    (r.parent_turn_id = 0 → r.depth = 0) := by
  unfold TurnStore.appendTurn at happ
  cases hres : TurnStore.resolveParent context_id parent_turn_id s with
  | error e => rw [hres] at happ; cases happ
  | ok pd =>
    rw [hres] at happ
    have hfst := congrArg Prod.fst happ
    simp only at hfst
    have hr : r.parent_turn_id = pd.1 ∧ r.depth = pd.2 := by
      cases hfst; exact ⟨rfl, rfl⟩
    obtain ⟨hpar, hdep⟩ := hr
    obtain ⟨h1, h2⟩ := resolveParent_spec context_id parent_turn_id s pd.1 pd.2 hwf hres
    constructor
    · intro hne
      rw [hpar] at hne ⊢
      obtain ⟨p, hp, hd⟩ := h1 hne
      exact ⟨p, hp, by rw [hdep]; exact hd⟩
    · intro h0
      rw [hpar] at h0
      rw [hdep]
      exact h2 h0

/-- Store with one context holding a single root turn, used to witness
the depth theorem at a concrete input. -/
def c2Store : TurnStoreSt :=
  (TurnStore.appendTurn 11 1 0 [7] 1 "echo" 1 0 3
    (TurnStore.createContext 10 0 TurnStoreSt.empty).2).2

theorem append_turn_depth_witness :
    TurnKeyWF c2Store ∧
    TurnStore.appendTurn 12 1 1 [8] 1 "echo" 1 0 3 c2Store =
      (.ok { turn_id := 2, parent_turn_id := 1, depth := 1, codec := 1, type_tag := 0,
             payload_hash := [8], flags := 0, created_at_unix_ms := 12 },
        (TurnStore.appendTurn 12 1 1 [8] 1 "echo" 1 0 3 c2Store).2) ∧
    ((1 : Nat) ≠ 0 →
      ∃ p, lookupA c2Store.turns 1 = some p ∧ (1 : Nat) = p.depth + 1) ∧
    ((1 : Nat) = 0 → (1 : Nat) = 0) := by
  refine ⟨by decide, by decide, ?_⟩
  have h := append_turn_depth 12 1 1 [8] 1 "echo" 1 0 3 c2Store
    (TurnStore.appendTurn 12 1 1 [8] 1 "echo" 1 0 3 c2Store).2
    { turn_id := 2, parent_turn_id := 1, depth := 1, codec := 1, type_tag := 0,
      payload_hash := [8], flags := 0, created_at_unix_ms := 12 }
    (by decide) (by decide)
  simpa using h

/-! Scenario for C9: two contexts, the second adopting the first one's
root turn as an explicit parent. -/

/-- Store after: create context 1; append its root turn (turn 1). -/
def c9StoreA : TurnStoreSt :=
  (TurnStore.appendTurn 101 1 0 [7] 1 "echo" 1 0 3
    (TurnStore.createContext 100 0 TurnStoreSt.empty).2).2

/-- The root turn appended under context 1. -/
def c9Turn1 : TurnRecord :=
  { turn_id := 1, parent_turn_id := 0, depth := 0, codec := 1, type_tag := 0,
    payload_hash := [7], flags := 0, created_at_unix_ms := 101 }

/-- Store after additionally creating the (empty) context 2. -/
def c9StoreB : TurnStoreSt := (TurnStore.createContext 102 0 c9StoreA).2

/-- The append to context 2 naming turn 1 — appended under context 1 —
as its explicit parent. -/
def c9Append : Except StoreErr TurnRecord × TurnStoreSt :=
  TurnStore.appendTurn 103 2 1 [8] 1 "echo" 1 0 3 c9StoreB

/-- The turn produced by the cross-context append. -/
def c9Turn2 : TurnRecord :=
  { turn_id := 2, parent_turn_id := 1, depth := 1, codec := 1, type_tag := 0,
    payload_hash := [8], flags := 0, created_at_unix_ms := 103 }

/-- C9: `turn_store.append_turn` with a nonzero `parent_turn_id`
requires only that the parent turn exists somewhere in the store and
never checks that it belongs to the target context: turn 1 was appended
under context 1 (and remains context 1's head), yet the append to
context 2 with `parent_turn_id = 1` succeeds, sets context 2's head to
the new depth-1 turn, and `get_last(2, 10)` afterwards returns the
chain `[turn 1, turn 2]` whose ancestor was appended under context 1. -/
theorem append_turn_cross_context :
    (TurnStore.appendTurn 101 1 0 [7] 1 "echo" 1 0 3
        (TurnStore.createContext 100 0 TurnStoreSt.empty).2).1 = .ok c9Turn1 ∧
    lookupA c9StoreB.heads 1 =
      some { context_id := 1, head_turn_id := 1, head_depth := 0,
             created_at_unix_ms := 101, flags := 0 } ∧
    lookupA c9StoreB.heads 2 =
      some { context_id := 2, head_turn_id := 0, head_depth := 0,
             created_at_unix_ms := 102, flags := 0 } ∧
    c9Append.1 = .ok c9Turn2 ∧
    lookupA c9Append.2.heads 2 =
      some { context_id := 2, head_turn_id := 2, head_depth := 1,
             created_at_unix_ms := 103, flags := 0 } ∧
    TurnStore.getLast 2 10 c9Append.2 = .ok [c9Turn1, c9Turn2] := by
  decide

/-! ## Store facade (`src/server/src/store.rs`)

`Store` composes the blob store, the turn store, the lazily populated
context-metadata cache and the CQL secondary indexes.  The msgpack
metadata extractor (`extract_context_metadata`, built on the external
`rmpv` decoder) is a parameter `extractMeta`; BLAKE3 is a parameter
`b3`.  The secondary indexes (the `cql` collaborator, whose source is
outside the specified core) are modelled at their interface as the
sequence of `add_context` insertions. -/

/-- Provenance of a context, extracted from the first turn's payload
(lineage fields; the remaining identity fields of the source are
carried opaquely by the extractor parameter). -/
structure Provenance where
  parent_context_id : Option Nat
  spawn_reason : Option String
  root_context_id : Option Nat
deriving DecidableEq, Repr

structure ContextMetadata where
  client_tag : Option String
  title : Option String
  labels : Option (List String)
  provenance : Option Provenance
deriving DecidableEq, Repr

structure StoreState where
  blob : BlobState
  turn : TurnStoreSt
  /-- `context_metadata_cache`: a cached `none` means metadata was
  looked for and absent. -/
  cache : List (Nat × Option ContextMetadata)
  /-- `SecondaryIndexes`, modelled from the spec as the sequence of
  `add_context(context_id, metadata, created_at, depth)` insertions
  (the `cql` module is a collaborator outside the specified core). -/
  indexes : List (Nat × Option ContextMetadata × Nat × Nat)
deriving DecidableEq, Repr

/-- Payload normalization at the top of `Store::append_turn`: identity
for wire compression 0, zstd decompression for 1, `InvalidInput` for
anything else. -/
def decompress (z : Zstd) (compression : Nat) (payload : List Nat) :
    Except StoreErr (List Nat) :=
  match compression with
  | 0 => .ok payload
  | 1 =>
    match z.decode payload with
    | some raw => .ok raw
    | none => .error (.invalidInput "zstd decode failed")
  | _ => .error (.invalidInput "unsupported compression")

/-- `Store::append_turn`: normalize the payload, check the declared
uncompressed length (`raw_bytes.len() as u32 != uncompressed_len` — the
source narrows the length to u32 for the comparison), check the BLAKE3
content hash, insert the blob, append the turn, and on the first append
to the context extract and cache metadata and update the secondary
indexes. -/
def Store.appendTurn (crc32 : List Nat → Nat) (z : Zstd) (b3 : List Nat → Hash)
    (extractMeta : List Nat → Option ContextMetadata) (now : Nat)
    (context_id parent_turn_id : Nat) (declared_type_id : String)
    (declared_type_version encoding compression uncompressed_len : Nat)
    (content_hash : Hash) (payload_bytes : List Nat) (s : StoreState) :
    Except StoreErr (TurnRecord × Option ContextMetadata) × StoreState :=
  match decompress z compression payload_bytes with
  | .error e => (.error e, s)
  | .ok raw_bytes =>
    if raw_bytes.length % 2 ^ 32 ≠ uncompressed_len then
      (.error (.invalidInput "uncompressed length mismatch"), s)
    else if b3 raw_bytes ≠ content_hash then
      (.error (.invalidInput "content hash mismatch"), s)
    else
      let blobRes := BlobStore.putIfAbsent crc32 z content_hash raw_bytes s.blob
      let turnRes := TurnStore.appendTurn now context_id parent_turn_id content_hash
        encoding declared_type_id declared_type_version compression uncompressed_len s.turn
      match turnRes.1 with
      | .error e => (.error e, { s with blob := blobRes.2, turn := turnRes.2 })
      | .ok record =>
        match lookupA s.cache context_id with
        | some _ => (.ok (record, none), { s with blob := blobRes.2, turn := turnRes.2 })
        | none =>
          let metadata := extractMeta raw_bytes
          let cache1 := (context_id, metadata) :: s.cache
          match metadata with
          | none =>
            (.ok (record, none),
              { s with blob := blobRes.2, turn := turnRes.2, cache := cache1 })
          | some m =>
            match lookupA turnRes.2.heads context_id with
            | none =>
              (.error (.notFound "context"),
                { s with blob := blobRes.2, turn := turnRes.2, cache := cache1 })
            | some head =>
              (.ok (record, some m),
                { blob := blobRes.2, turn := turnRes.2, cache := cache1,
                  indexes := (context_id, some m, head.created_at_unix_ms, record.depth)
                    :: s.indexes })

/-- C1 (amended): whenever the normalized payload's length, narrowed to
u32 exactly as the source compares it, differs from the declared
`uncompressed_len`, the facade `append_turn` fails with `InvalidInput`
and returns the store state unchanged — blob store, turn store,
metadata cache and secondary indexes included. -/
theorem append_turn_len_mismatch (crc32 : List Nat → Nat) (z : Zstd) (b3 : List Nat → Hash)
    (extractMeta : List Nat → Option ContextMetadata) (now : Nat)
    (context_id parent_turn_id : Nat) (declared_type_id : String)
    (declared_type_version encoding compression uncompressed_len : Nat)
    (content_hash : Hash) (payload_bytes raw_bytes : List Nat) (s : StoreState)
    (hdec : decompress z compression payload_bytes = .ok raw_bytes)
    (hlen : raw_bytes.length % 2 ^ 32 ≠ uncompressed_len) :
    Store.appendTurn crc32 z b3 extractMeta now context_id parent_turn_id declared_type_id
      declared_type_version encoding compression uncompressed_len content_hash
      payload_bytes s =
    (.error (.invalidInput "uncompressed length mismatch"), s) := by
  unfold Store.appendTurn
  rw [hdec]
  simp only [ne_eq, hlen, not_false_eq_true, if_true]

theorem append_turn_len_mismatch_witness :
    decompress zstdNoComp 0 [1, 2, 3] = .ok [1, 2, 3] ∧
    [1, 2, 3].length % 2 ^ 32 ≠ 5 ∧
    Store.appendTurn (fun _ => 0) zstdNoComp (fun _ => [9]) (fun _ => none) 11 1 0 "echo"
      1 1 0 5 [9] [1, 2, 3]
      { blob := BlobState.empty, turn := TurnStoreSt.empty, cache := [], indexes := [] } =
    (.error (.invalidInput "uncompressed length mismatch"),
      { blob := BlobState.empty, turn := TurnStoreSt.empty, cache := [], indexes := [] }) :=
  ⟨by decide, by decide,
   append_turn_len_mismatch (fun _ => 0) zstdNoComp (fun _ => [9]) (fun _ => none) 11 1 0
     "echo" 1 1 0 5 [9] [1, 2, 3] [1, 2, 3]
     { blob := BlobState.empty, turn := TurnStoreSt.empty, cache := [], indexes := [] }
     (by decide) (by decide)⟩

/-- Helper: when every check passes and the turn store accepts the
append, the facade call succeeds (cache hit, or no metadata
extracted). -/
theorem appendTurn_ok_of_checks (crc32 : List Nat → Nat) (z : Zstd) (b3 : List Nat → Hash)
    (extractMeta : List Nat → Option ContextMetadata) (now : Nat)
    (context_id parent_turn_id : Nat) (declared_type_id : String)
    (declared_type_version encoding compression uncompressed_len : Nat)
    (content_hash : Hash) (payload_bytes raw_bytes : List Nat) (s : StoreState)
    (record : TurnRecord) (st : TurnStoreSt)
    (hdec : decompress z compression payload_bytes = .ok raw_bytes)
    (hlen : raw_bytes.length % 2 ^ 32 = uncompressed_len)
    (hhash : b3 raw_bytes = content_hash)
    (happ : TurnStore.appendTurn now context_id parent_turn_id content_hash encoding
      declared_type_id declared_type_version compression uncompressed_len s.turn =
      (.ok record, st))
    (hmeta : (∃ m, lookupA s.cache context_id = some m) ∨ extractMeta raw_bytes = none) :
    (Store.appendTurn crc32 z b3 extractMeta now context_id parent_turn_id declared_type_id
      declared_type_version encoding compression uncompressed_len content_hash
      payload_bytes s).1 = .ok (record, none) := by
  unfold Store.appendTurn
  rw [hdec]
  simp only [ne_eq, hlen, not_true_eq_false, if_false, hhash, if_false, happ]
  rcases hmeta with ⟨m, hm⟩ | hx
  · simp [hm]
  · cases hc : lookupA s.cache context_id with
    | some m => simp [hc]
    | none => simp [hc, hx]

/-- A payload longer than `u32::MAX + 1` whose length collapses to 0
under the `as u32` narrowing. -/
def c1BigPayload : List Nat := List.replicate (2 ^ 32) 0

def c1State : StoreState :=
  { blob := BlobState.empty, turn := (TurnStore.createContext 10 0 TurnStoreSt.empty).2,
    cache := [], indexes := [] }

/-- C1 counterexample to the claim as stated: this payload (taken as-is,
wire compression `None`) has length `2 ^ 32`, different from the
declared `uncompressed_len = 0`, yet `append_turn` succeeds, because the
source compares `raw_bytes.len() as u32 != uncompressed_len` and the
narrowed length is 0.  (The BLAKE3 parameter is instantiated with the
constant hash the caller declared, i.e. the caller declared the correct
content hash.) -/
theorem append_turn_len_mismatch_counterexample :
    c1BigPayload.length ≠ 0 ∧
    (Store.appendTurn (fun _ => 0) zstdNoComp (fun _ => [9]) (fun _ => none) 11 1 0 "echo"
      1 1 0 0 [9] c1BigPayload c1State).1 =
      .ok ({ turn_id := 1, parent_turn_id := 0, depth := 0, codec := 1, type_tag := 0,
             payload_hash := [9], flags := 0, created_at_unix_ms := 11 }, none) := by
  have hlen : c1BigPayload.length = 2 ^ 32 := by
    simp only [c1BigPayload]
    exact List.length_replicate _ _
  constructor
  · rw [hlen]
    norm_num
  · refine appendTurn_ok_of_checks (fun _ => 0) zstdNoComp (fun _ => [9]) (fun _ => none)
      11 1 0 "echo" 1 1 0 0 [9] c1BigPayload c1BigPayload c1State
      { turn_id := 1, parent_turn_id := 0, depth := 0, codec := 1, type_tag := 0,
        payload_hash := [9], flags := 0, created_at_unix_ms := 11 }
      (TurnStore.appendTurn 11 1 0 [9] 1 "echo" 1 0 0 c1State.turn).2
      rfl ?_ rfl (by decide) (Or.inr rfl)
    rw [hlen]
    exact Nat.mod_self _

/-! ## Registry (`src/server/src/registry/mod.rs`)

Bundles, type entries and enumerations are JSON shapes; the serde
parsing of raw bytes is a parameter `parse` of `put_bundle`.  Hash maps
are association lists (iteration order made explicit), mutation is
state passing: `ingest_bundle` mutates the registry in place and an
error mid-merge returns the partially merged state, exactly as the
source mutates `self` before the failure point.  The file written on a
successful put is modelled by the `files` field. -/

inductive ItemsJson where
  | str (s : String)
  | obj (ty : Option String) (rf : Option String)
  | other
deriving DecidableEq, Repr

structure RendererSpec where
  esm_url : String
  component : Option String
  integrity : Option String
deriving DecidableEq, Repr

structure FieldDef where
  name : String
  field_type : String
  enum_ref : Option String
  type_ref : Option String
  optional : Option Bool
  items : Option ItemsJson
deriving DecidableEq, Repr

structure TypeVersion where
  fields : List (String × FieldDef)
  renderer : Option RendererSpec
deriving DecidableEq, Repr

structure TypeEntry where
  versions : List (String × TypeVersion)
deriving DecidableEq, Repr

structure RegistryBundle where
  registry_version : Nat
  bundle_id : String
  types : List (String × TypeEntry)
  enums : List (String × List (String × String))
deriving DecidableEq, Repr

inductive ItemsSpec where
  | simple (s : String)
  | ref (s : String)
deriving DecidableEq, Repr

structure FieldSpec where
  name : String
  field_type : String
  enum_ref : Option String
  type_ref : Option String
  optional : Bool
  items : Option ItemsSpec
deriving DecidableEq, Repr

/-- Signature a tag is pinned to within a type: base type plus enum
reference (`FieldSignature` in the source — the field name is not part
of it). -/
structure FieldSignature where
  field_type : String
  enum_ref : Option String
deriving DecidableEq, Repr

structure TypeVersionSpec where
  version : Nat
  fields : List (Nat × FieldSpec)
  renderer : Option RendererSpec
deriving DecidableEq, Repr

structure TypeSpec where
  versions : List (Nat × TypeVersionSpec)
  tag_schema : List (Nat × FieldSignature)
deriving DecidableEq, Repr

structure Registry where
  bundles : List (String × List Nat)
  types : List (String × TypeSpec)
  enums : List (String × List (String × String))
  /-- Raw bundle bytes persisted to the registry directory. -/
  files : List (String × List Nat)
  last_bundle_id : Option String
deriving DecidableEq, Repr

def Registry.empty : Registry :=
  { bundles := [], types := [], enums := [], files := [], last_bundle_id := none }

inductive PutOutcome where
  | created
  | alreadyExists
deriving DecidableEq, Repr

def digitVal? (c : Char) : Option Nat :=
  if 48 ≤ c.toNat ∧ c.toNat ≤ 57 then some (c.toNat - 48) else none

def natFromDigits : List Char → Nat → Option Nat
  | [], acc => some acc
  | c :: rest, acc =>
    match digitVal? c with
    | some d => natFromDigits rest (acc * 10 + d)
    | none => none

/-- Digit-string parsing (the semantics of Rust's `str::parse` for an
unsigned integer on an all-digit string), written over the character
list so it evaluates by kernel reduction. -/
def strToNat (s : String) : Option Nat :=
  match s.toList with
  | [] => none
  | c :: rest => natFromDigits (c :: rest) 0

/-- `version.parse::<u32>()`. -/
def parseVersion (s : String) : Except StoreErr Nat :=
  match strToNat s with
  | some n => if n < 2 ^ 32 then .ok n else .error (.invalidInput "invalid type version")
  | none => .error (.invalidInput "invalid type version")

/-- `tag_str.parse::<u64>()`. -/
def parseTag (s : String) : Except StoreErr Nat :=
  match strToNat s with
  | some n => if n < 2 ^ 64 then .ok n else .error (.invalidInput "invalid field tag")
  | none => .error (.invalidInput "invalid field tag")

/-- The items-spec normalization of `normalize_version`: a plain string
is a simple item type; an object is a type-ref when it says `ref`
(long or shorthand form), else a simple type. -/
def parseItems : Option ItemsJson → Option ItemsSpec
  | some (.str s) => some (.simple s)
  | some (.obj (some t) rf) =>
    if t = "ref" then
      match rf with
      | some r => some (.ref r)
      | none => none
    else some (.simple t)
  | some (.obj none (some r)) => some (.ref r)
  | some (.obj none none) => none
  | some .other => none
  | none => none

/-- The `FieldSpec` built for one field definition in
`normalize_version`. -/
def fieldSpecOf (fd : FieldDef) : FieldSpec :=
  { name := fd.name, field_type := fd.field_type, enum_ref := fd.enum_ref,
    type_ref := fd.type_ref, optional := fd.optional.getD false,
    items := parseItems fd.items }

def normalizeFields : List (String × FieldDef) → Except StoreErr (List (Nat × FieldSpec))
  | [] => .ok []
  | (tagStr, fd) :: rest =>
    match parseTag tagStr with
    | .error e => .error e
    | .ok tag =>
      match normalizeFields rest with
      | .error e => .error e
      | .ok fs => .ok ((tag, fieldSpecOf fd) :: fs)

/-- `normalize_version`. -/
def normalizeVersion (version : Nat) (vdef : TypeVersion) : Except StoreErr TypeVersionSpec :=
  match normalizeFields vdef.fields with
  | .error e => .error e
  | .ok fields => .ok { version := version, fields := fields, renderer := vdef.renderer }

/-- The enum-merge loop of `ingest_bundle`: an enum id already present
must map identically, otherwise `InvalidInput`; fresh ids are inserted.
An error keeps the insertions made so far. -/
def mergeEnums : List (String × List (String × String)) → Registry →
    Except StoreErr Unit × Registry
  | [], r => (.ok (), r)
  | (enum_id, mapping) :: rest, r =>
    match lookupA r.enums enum_id with
    | some existing =>
      if existing ≠ mapping then
        (.error (.invalidInput ("enum " ++ enum_id ++ " already exists with different mapping")), r)
      else mergeEnums rest r
    | none => mergeEnums rest { r with enums := (enum_id, mapping) :: r.enums }

/-- The tag-schema loop: each tag of a new version must either be fresh
or carry the signature already recorded for it; a conflict errors with
the insertions made so far. -/
def mergeTags (type_id : String) : List (Nat × FieldSpec) → List (Nat × FieldSignature) →
    Except StoreErr Unit × List (Nat × FieldSignature)
  | [], schema => (.ok (), schema)
  | (tag, field) :: rest, schema =>
    let signature : FieldSignature :=
      { field_type := field.field_type, enum_ref := field.enum_ref }
    match lookupA schema tag with
    | some existing =>
      if existing ≠ signature then
        (.error (.invalidInput ("tag reuse conflict for type " ++ type_id ++ " tag " ++
          toString tag)), schema)
      else mergeTags type_id rest schema
    | none => mergeTags type_id rest ((tag, signature) :: schema)

/-- The version-merge loop for one type: a version already present must
have an identical field map (adopting a renderer the stored version
lacked); a new version has its tags checked against the tag schema and
is then inserted. -/
def mergeVersions (type_id : String) : List (String × TypeVersion) → TypeSpec →
    Except StoreErr Unit × TypeSpec
  | [], spec => (.ok (), spec)
  | (vstr, vdef) :: rest, spec =>
    match parseVersion vstr with
    | .error e => (.error e, spec)
    | .ok version =>
      match normalizeVersion version vdef with
      | .error e => (.error e, spec)
      | .ok normalized =>
        match lookupA spec.versions version with
        | some existing =>
          if existing.fields ≠ normalized.fields then
            (.error (.invalidInput ("type " ++ type_id ++ " version " ++ toString version ++
              " differs from existing")), spec)
          else
            let adopted := { existing with renderer := normalized.renderer }
            let spec1 :=
              if normalized.renderer.isSome ∧ existing.renderer = none then
                { spec with versions := updateA spec.versions version adopted }
              else spec
            mergeVersions type_id rest spec1
        | none =>
          match mergeTags type_id normalized.fields spec.tag_schema with
          | (.error e, schema) => (.error e, { spec with tag_schema := schema })
          | (.ok _, schema) =>
            mergeVersions type_id rest
              { versions := (version, normalized) :: spec.versions, tag_schema := schema }

/-- `HashMap::entry(..).or_insert_with(..)` then write back the merged
spec: present keys are updated in place, fresh keys inserted. -/
def insertOrUpdate {κ α : Type} [DecidableEq κ] (l : List (κ × α)) (k : κ) (v : α) :
    List (κ × α) :=
  if (lookupA l k).isSome then updateA l k v else (k, v) :: l

/-- The type-merge loop of `ingest_bundle`. -/
def mergeTypes : List (String × TypeEntry) → Registry → Except StoreErr Unit × Registry
  | [], r => (.ok (), r)
  | (type_id, entry) :: rest, r =>
    let spec0 :=
      match lookupA r.types type_id with
      | some spec => spec
      | none => { versions := [], tag_schema := [] }
    match mergeVersions type_id entry.versions spec0 with
    | (.error e, spec) => (.error e, { r with types := insertOrUpdate r.types type_id spec })
    | (.ok _, spec) => mergeTypes rest { r with types := insertOrUpdate r.types type_id spec }

def validateFields (r : Registry) (type_id : String) (version : Nat) :
    List (Nat × FieldSpec) → Except StoreErr Unit
  | [] => .ok ()
  | (tag, field) :: rest =>
    match field.enum_ref with
    | some e =>
      if (lookupA r.enums e).isSome then validateFields r type_id version rest
      else
        .error (.invalidInput ("missing enum " ++ e ++ " for type " ++ type_id ++
          " version " ++ toString version ++ " tag " ++ toString tag))
    | none => validateFields r type_id version rest

def validateVersions (r : Registry) (type_id : String) :
    List (Nat × TypeVersionSpec) → Except StoreErr Unit
  | [] => .ok ()
  | (version, vspec) :: rest =>
    match validateFields r type_id version vspec.fields with
    | .error e => .error e
    | .ok _ => validateVersions r type_id rest

def validateTypesFrom (r : Registry) : List (String × TypeSpec) → Except StoreErr Unit
  | [] => .ok ()
  | (type_id, spec) :: rest =>
    match validateVersions r type_id spec.versions with
    | .error e => .error e
    | .ok _ => validateTypesFrom r rest

/-- The post-merge validation of `ingest_bundle`: every enum referenced
by any registered type version must exist. -/
def validateEnumRefs (r : Registry) : Except StoreErr Unit :=
  validateTypesFrom r r.types

/-- `Registry::ingest_bundle`: merge enums, merge types, then validate
enum references; mutations made before a failure remain. -/
def Registry.ingestBundle (bundle : RegistryBundle) (r : Registry) :
    Except StoreErr Unit × Registry :=
  if bundle.registry_version = 0 then
    (.error (.invalidInput "registry_version must be greater than 0"), r)
  else
    match mergeEnums bundle.enums r with
    | (.error e, r1) => (.error e, r1)
    | (.ok _, r1) =>
      match mergeTypes bundle.types r1 with
      | (.error e, r2) => (.error e, r2)
      | (.ok _, r2) =>
        match validateEnumRefs r2 with
        | .error e => (.error e, r2)
        | .ok _ => (.ok (), r2)

def sanitizeChar (c : Char) : Char :=
  if c = '/' ∨ c = ':' ∨ c = '#' then '_' else c

def bundleFilename (bundle_id : String) : String :=
  "bundle_" ++ String.map sanitizeChar bundle_id ++ ".json"

/-- `Registry::put_bundle`: identical bytes for a stored id are a no-op
(`AlreadyExists`); different bytes for a stored id are `InvalidInput`;
otherwise parse, check the embedded id, ingest, and only on success
write the file and record the bundle bytes. -/
def Registry.putBundle (parse : List Nat → Option RegistryBundle) (bundle_id : String)
    (raw : List Nat) (r : Registry) : Except StoreErr PutOutcome × Registry :=
  match lookupA r.bundles bundle_id with
  | some existing =>
    if existing = raw then (.ok .alreadyExists, r)
    else (.error (.invalidInput "bundle_id already exists with different content"), r)
  | none =>
    match parse raw with
    | none => (.error (.invalidInput "invalid json"), r)
    | some bundle =>
      if bundle.bundle_id ≠ bundle_id then
        (.error (.invalidInput "bundle_id does not match path"), r)
      else
        match Registry.ingestBundle bundle r with
        | (.error e, r1) => (.error e, r1)
        | (.ok _, r1) =>
          (.ok .created,
            { r1 with files := r1.files ++ [(bundleFilename bundle_id, raw)],
                      bundles := (bundle_id, raw) :: r1.bundles,
                      last_bundle_id := some bundle_id })

/-- C4: for a bundle id with previously accepted bytes, a second
`put_bundle` with identical bytes returns `AlreadyExists` and changes
nothing, and a second `put_bundle` with different bytes fails with
`InvalidInput`, also changing nothing. -/
theorem put_bundle_duplicate (parse : List Nat → Option RegistryBundle) (r : Registry)
    (bundle_id : String) (raw stored : List Nat)
    (hstored : lookupA r.bundles bundle_id = some stored) :
    Registry.putBundle parse bundle_id raw r =
      (if stored = raw then (.ok .alreadyExists, r)
       else (.error (.invalidInput "bundle_id already exists with different content"), r)) := by
  unfold Registry.putBundle
  rw [hstored]

theorem put_bundle_duplicate_witness :
    lookupA ({ Registry.empty with bundles := [("B", [1, 2])] } : Registry).bundles "B" =
      some [1, 2] ∧
    Registry.putBundle (fun _ => none) "B" [1, 2]
        { Registry.empty with bundles := [("B", [1, 2])] } =
      (if [1, 2] = [1, 2] then
        (.ok .alreadyExists, { Registry.empty with bundles := [("B", [1, 2])] })
       else (.error (.invalidInput "bundle_id already exists with different content"),
        { Registry.empty with bundles := [("B", [1, 2])] })) :=
  ⟨by decide,
   put_bundle_duplicate (fun _ => none) { Registry.empty with bundles := [("B", [1, 2])] }
     "B" [1, 2] [1, 2] (by decide)⟩

/-! Concrete bundles for C5: both give tag `1` of type `T` the
signature (base type `string`, no enum), but under different field
names. -/

def c5FieldA : FieldDef :=
  { name := "role", field_type := "string", enum_ref := none, type_ref := none,
    optional := none, items := none }

def c5FieldB : FieldDef :=
  { name := "other", field_type := "string", enum_ref := none, type_ref := none,
    optional := none, items := none }

def c5BundleA : RegistryBundle :=
  { registry_version := 1, bundle_id := "A",
    types := [("T", { versions := [("1", { fields := [("1", c5FieldA)], renderer := none })] })],
    enums := [] }

def c5BundleB : RegistryBundle :=
  { registry_version := 1, bundle_id := "B",
    types := [("T", { versions := [("2", { fields := [("1", c5FieldB)], renderer := none })] })],
    enums := [] }

def c5RegA : Registry := (Registry.ingestBundle c5BundleA Registry.empty).2

/-- C5 counterexample to the claim as stated: tag 1 of type `T` was
used in version 1 for the quadruple (`T`, `role`, `string`, no enum);
version 2 reuses the tag for the different quadruple
(`T`, `other`, `string`, no enum) — the field name differs — and the
ingest nevertheless succeeds, because the source's `FieldSignature`
records only the base type and enum reference. -/
theorem tag_reuse_different_name_accepted :
    (Registry.ingestBundle c5BundleA Registry.empty).1 = .ok () ∧
    c5FieldA.name ≠ c5FieldB.name ∧
    (Registry.ingestBundle c5BundleB c5RegA).1 = .ok () := by
  decide

theorem mergeEnums_shape (l : List (String × List (String × String))) (r : Registry) :
    (∃ msg, (mergeEnums l r).1 = .error (.invalidInput msg)) ∨
    ((mergeEnums l r).1 = .ok () ∧ (mergeEnums l r).2.types = r.types) := by
  induction l generalizing r with
  | nil => exact Or.inr ⟨rfl, rfl⟩
  | cons p rest ih =>
    obtain ⟨enum_id, mapping⟩ := p
    cases hlk : lookupA r.enums enum_id with
    | some existing =>
      by_cases hne : existing ≠ mapping
      · refine Or.inl ⟨"enum " ++ enum_id ++ " already exists with different mapping", ?_⟩
        simp only [mergeEnums, hlk]
        rw [if_pos hne]
      · have heq : mergeEnums ((enum_id, mapping) :: rest) r = mergeEnums rest r := by
          simp only [mergeEnums, hlk]
          rw [if_neg hne]
        rw [heq]
        exact ih r
    | none =>
      have heq : mergeEnums ((enum_id, mapping) :: rest) r =
          mergeEnums rest { r with enums := (enum_id, mapping) :: r.enums } := by
        simp only [mergeEnums, hlk]
      rw [heq]
      rcases ih { r with enums := (enum_id, mapping) :: r.enums } with h | ⟨h1, h2⟩
      · exact Or.inl h
      · exact Or.inr ⟨h1, h2⟩

theorem mergeTags_head_conflict (tid : String) (tag : Nat) (fs : FieldSpec)
    (rest : List (Nat × FieldSpec)) (schema : List (Nat × FieldSignature))
    (sig : FieldSignature)
    (hsig : lookupA schema tag = some sig)
    (hdiff : sig ≠ { field_type := fs.field_type, enum_ref := fs.enum_ref }) :
    mergeTags tid ((tag, fs) :: rest) schema =
      (.error (.invalidInput ("tag reuse conflict for type " ++ tid ++ " tag " ++
        toString tag)), schema) := by
  simp only [mergeTags, hsig]
  rw [if_pos hdiff]

theorem mergeVersions_single_conflict (tid vstr : String) (vdef : TypeVersion)
    (spec : TypeSpec) (v : Nat) (normalized : TypeVersionSpec) (e : StoreErr)
    (schema : List (Nat × FieldSignature))
    (hv : parseVersion vstr = .ok v)
    (hnorm : normalizeVersion v vdef = .ok normalized)
    (hnover : lookupA spec.versions v = none)
    (hmt : mergeTags tid normalized.fields spec.tag_schema = (.error e, schema)) :
    mergeVersions tid [(vstr, vdef)] spec = (.error e, { spec with tag_schema := schema }) := by
  simp only [mergeVersions, hv, hnorm, hnover, hmt]

theorem mergeTypes_single (tid : String) (entry : TypeEntry) (rr : Registry)
    (spec : TypeSpec) (e : StoreErr) (spec1 : TypeSpec)
    (hspec : lookupA rr.types tid = some spec)
    (hmv : mergeVersions tid entry.versions spec = (.error e, spec1)) :
    mergeTypes [(tid, entry)] rr =
      (.error e, { rr with types := insertOrUpdate rr.types tid spec1 }) := by
  simp only [mergeTypes, hspec, hmv]

/-- C5 (amended): within a type, a tag is pinned to its
(base type, enum reference) signature: a bundle introducing a new
version of an existing type in which a tag already recorded in the
type's tag schema carries a different base type or enum reference is
rejected by `ingest_bundle` with `InvalidInput`. -/
theorem ingest_tag_signature_conflict (r : Registry) (b : RegistryBundle)
    (tid tagStr vstr : String) (fd : FieldDef) (spec : TypeSpec) (v tag : Nat)
    (sig : FieldSignature)
    (hrv : b.registry_version ≠ 0)
    (htypes : b.types =
      [(tid, { versions := [(vstr, { fields := [(tagStr, fd)], renderer := none })] })])
    (hspec : lookupA r.types tid = some spec)
    (hv : parseVersion vstr = .ok v)
    (htag : parseTag tagStr = .ok tag)
    (hnover : lookupA spec.versions v = none)
    (hsig : lookupA spec.tag_schema tag = some sig)
    (hdiff : sig ≠ { field_type := fd.field_type, enum_ref := fd.enum_ref }) :
    ∃ msg, (Registry.ingestBundle b r).1 = .error (.invalidInput msg) := by
  unfold Registry.ingestBundle
  rw [if_neg hrv]
  rcases hme : mergeEnums b.enums r with ⟨e1, r1⟩
  rcases mergeEnums_shape b.enums r with ⟨msg, herr⟩ | ⟨hok, htypes1⟩
  · rw [hme] at herr
    simp only at herr
    subst herr
    exact ⟨msg, by simp⟩
  · rw [hme] at hok htypes1
    simp only at hok htypes1
    subst hok
    have hnorm : normalizeVersion v { fields := [(tagStr, fd)], renderer := none } =
        .ok { version := v, fields := [(tag, fieldSpecOf fd)], renderer := none } := by
      simp only [normalizeVersion, normalizeFields, htag]
    have hdiff2 : sig ≠ { field_type := (fieldSpecOf fd).field_type,
                          enum_ref := (fieldSpecOf fd).enum_ref } := hdiff
    have hmt := mergeTags_head_conflict tid tag (fieldSpecOf fd) [] spec.tag_schema sig
      hsig hdiff2
    have hmv := mergeVersions_single_conflict tid vstr
      { fields := [(tagStr, fd)], renderer := none } spec v
      { version := v, fields := [(tag, fieldSpecOf fd)], renderer := none }
      (.invalidInput ("tag reuse conflict for type " ++ tid ++ " tag " ++ toString tag))
      spec.tag_schema hv hnorm hnover hmt
    have hspec1 : lookupA r1.types tid = some spec := by rw [htypes1]; exact hspec
    have hmts := mergeTypes_single tid
      { versions := [(vstr, { fields := [(tagStr, fd)], renderer := none })] } r1 spec
      (.invalidInput ("tag reuse conflict for type " ++ tid ++ " tag " ++ toString tag))
      { spec with tag_schema := spec.tag_schema } hspec1 hmv
    refine ⟨"tag reuse conflict for type " ++ tid ++ " tag " ++ toString tag, ?_⟩
    rw [htypes]
    simp only [hmts]

/-- The registered spec of type `T` after ingesting bundle A. -/
def c5SpecT : TypeSpec :=
  { versions := [(1, { version := 1, fields := [(1, fieldSpecOf c5FieldA)],
                       renderer := none })],
    tag_schema := [(1, { field_type := "string", enum_ref := none })] }

theorem ingest_tag_signature_conflict_witness :
    ∃ msg,
      (Registry.ingestBundle
        { registry_version := 1, bundle_id := "B",
          types := [("T", { versions :=
            [("2", { fields := [("1", { name := "role", field_type := "u8",
                                        enum_ref := none, type_ref := none,
                                        optional := none, items := none })],
                     renderer := none })] })],
          enums := [] } c5RegA).1 = .error (.invalidInput msg) :=
  ingest_tag_signature_conflict c5RegA _ "T" "1" "2"
    { name := "role", field_type := "u8", enum_ref := none, type_ref := none,
      optional := none, items := none }
    c5SpecT 2 1 { field_type := "string", enum_ref := none }
    (by decide) (by decide) (by decide) (by decide) (by decide) (by decide) (by decide)
    (by decide)

/-! Concrete scenario for C10: bundle `B` carries a fresh enumeration
`E` and a type `S` whose field references the missing enum `X`.  The
enum and type merges succeed and mutate the registry before the final
enum-reference validation rejects the bundle. -/

def c10Field : FieldDef :=
  { name := "k", field_type := "string", enum_ref := some "X", type_ref := none,
    optional := none, items := none }

def c10Bundle : RegistryBundle :=
  { registry_version := 1, bundle_id := "B",
    types := [("S", { versions := [("1", { fields := [("1", c10Field)], renderer := none })] })],
    enums := [("E", [("0", "zero")])] }

def c10Parse : List Nat → Option RegistryBundle :=
  fun raw => if raw = [66] then some c10Bundle else none

def c10Res : Except StoreErr PutOutcome × Registry :=
  Registry.putBundle c10Parse "B" [66] Registry.empty

/-- C10: `put_bundle` is not atomic on merge failure: the bundle is
rejected (its field references the missing enum `X`, found only in the
final validation), yet the enumeration `E` and the type version
`S v1` taken from the rejected bundle remain registered in memory,
while the bundle's bytes are neither recorded in the bundle map nor
written to disk and the current-bundle marker is untouched. -/
theorem registry_put_bundle_not_atomic :
    c10Res.1 = .error (.invalidInput "missing enum X for type S version 1 tag 1") ∧
    lookupA c10Res.2.enums "E" = some [("0", "zero")] ∧
    ((lookupA c10Res.2.types "S").bind (fun spec => lookupA spec.versions 1)).isSome = true ∧
    lookupA c10Res.2.bundles "B" = none ∧
    c10Res.2.files = [] ∧
    c10Res.2.last_bundle_id = none := by
  decide

/-! ## Follow reconciler (`src/clients/rust/src/follow.rs`)

Per-context state of `FollowState` and its `sync_context` step.  The
turn-client capability is modelled by the context's authoritative turn
list in ancestor-first order: `get_head` reports the last turn (as both
the server and the test stub derive it) and `get_last(limit)` returns
the trailing `limit` records (`turn.rs` itself is outside the given
sources; the record carries the identification fields the reconciler
reads).  The bounded output channel always eventually accepts a send
(`send_follow_turn` retries until cancellation, and the scenario runs
uncancelled), so emission is modelled as appending to the output
list. -/

structure FTurn where
  turn_id : Nat
  parent_id : Nat
  depth : Nat
deriving DecidableEq, Repr

structure FHead where
  context_id : Nat
  head_turn_id : Nat
  head_depth : Nat
deriving DecidableEq, Repr

inductive FollowErr where
  | cancelled
  | timeout
  | decodeErr (msg : String)
  | clientErr (msg : String)
  | other (msg : String)
deriving DecidableEq, Repr

structure FollowState where
  has_last : Bool
  last_seen_turn_id : Nat
  last_seen_depth : Nat
  seen : List Nat
  seen_order : List Nat
  max_seen : Nat
deriving DecidableEq, Repr

def DEFAULT_MAX_SEEN_PER_CONTEXT : Nat := 2048

def FollowState.new (max_seen : Nat) : FollowState :=
  { has_last := false, last_seen_turn_id := 0, last_seen_depth := 0, seen := [],
    seen_order := [],
    max_seen := if max_seen = 0 then DEFAULT_MAX_SEEN_PER_CONTEXT else max_seen }

/-- `HashSet::insert` (set semantics on a duplicate-free list). -/
def insertSeen (l : List Nat) (x : Nat) : List Nat := if x ∈ l then l else x :: l

/-- The eviction loop of `record_turn`: while the insertion-order queue
exceeds `max_seen`, pop the oldest id and drop it from the seen set. -/
def evictLoop (maxSeen : Nat) : List Nat → List Nat → List Nat × List Nat
  | seen, [] => (seen, [])
  | seen, oldest :: restOrder =>
    if maxSeen < (oldest :: restOrder).length then
      evictLoop maxSeen (seen.erase oldest) restOrder
    else (seen, oldest :: restOrder)

/-- `FollowState::record_turn`: insert the id into the bounded seen
set and advance the last-seen state when the turn's depth is at least
the tracked depth (or nothing was tracked yet). -/
def recordTurn (s : FollowState) (t : FTurn) : FollowState :=
  let ev := evictLoop s.max_seen (insertSeen s.seen t.turn_id) (s.seen_order ++ [t.turn_id])
  if s.has_last = false ∨ s.last_seen_depth ≤ t.depth then
    { s with seen := ev.1, seen_order := ev.2, has_last := true,
             last_seen_depth := t.depth, last_seen_turn_id := t.turn_id }
  else
    { s with seen := ev.1, seen_order := ev.2 }

/-- The per-batch loop of `sync_context`: skip turns already in the
seen set, emit and record the rest; returns the final state and the
emitted turn ids in order. -/
def syncTurns (s : FollowState) : List FTurn → FollowState × List Nat
  | [] => (s, [])
  | t :: rest =>
    if t.turn_id ∈ s.seen then syncTurns s rest
    else
      let r := syncTurns (recordTurn s t) rest
      (r.1, t.turn_id :: r.2)

/-- The turn-client capability for one context, given by its
authoritative ancestor-first turn list. -/
structure FClient where
  context_id : Nat
  turns : List FTurn
deriving DecidableEq, Repr

def FClient.getHead (c : FClient) : FHead :=
  match c.turns.getLast? with
  | some t => { context_id := c.context_id, head_turn_id := t.turn_id, head_depth := t.depth }
  | none => { context_id := c.context_id, head_turn_id := 0, head_depth := 0 }

def FClient.getLastTurns (c : FClient) (limit : Nat) : List FTurn :=
  let n := if limit = 0 ∨ c.turns.length < limit then c.turns.length else limit
  c.turns.drop (c.turns.length - n)

/-- `FollowState::sync_context`: fetch the head; report a regression
error when the head depth moved below the tracked depth; compute the
number of missing turns (`head_depth - last_seen_depth`, saturating, or
`head_depth + 1` without prior state); fetch that many trailing turns
and emit the unseen ones. -/
def syncContext (c : FClient) (s : FollowState) :
    Except FollowErr (FollowState × List Nat) :=
  let head := FClient.getHead c
  if s.has_last = true ∧ head.head_depth < s.last_seen_depth then
    .error (.other "follow turns: head depth regressed")
  else
    let missing :=
      if s.has_last = true ∧ s.seen ≠ [] then head.head_depth - s.last_seen_depth
      else head.head_depth + 1
    if missing = 0 then .ok (s, [])
    else
      let r := syncTurns s (FClient.getLastTurns c missing)
      .ok (r.1, r.2)

theorem recordTurn_hasLast (s : FollowState) (t : FTurn) :
    (recordTurn s t).has_last = true := by
  unfold recordTurn
  by_cases h : s.has_last = false ∨ s.last_seen_depth ≤ t.depth
  · rw [if_pos h]
  · rw [if_neg h]
    push_neg at h
    simp only
    exact Bool.of_not_eq_false h.1

theorem recordTurn_lastSeen_ge (s : FollowState) (t : FTurn) :
    t.depth ≤ (recordTurn s t).last_seen_depth := by
  unfold recordTurn
  by_cases h : s.has_last = false ∨ s.last_seen_depth ≤ t.depth
  · rw [if_pos h]
  · rw [if_neg h]
    push_neg at h
    exact Nat.le_of_lt h.2

theorem recordTurn_lastSeen_mono (s : FollowState) (t : FTurn)
    (hl : s.has_last = true) :
    s.last_seen_depth ≤ (recordTurn s t).last_seen_depth := by
  unfold recordTurn
  by_cases h : s.has_last = false ∨ s.last_seen_depth ≤ t.depth
  · rw [if_pos h]
    rcases h with h | h
    · rw [hl] at h; cases h
    · exact h
  · rw [if_neg h]

theorem recordTurn_lastSeen_le (s : FollowState) (t : FTurn) (D : Nat)
    (ht : t.depth ≤ D) (hs : s.has_last = true → s.last_seen_depth ≤ D) :
    (recordTurn s t).last_seen_depth ≤ D := by
  unfold recordTurn
  by_cases h : s.has_last = false ∨ s.last_seen_depth ≤ t.depth
  · rw [if_pos h]
    exact ht
  · rw [if_neg h]
    push_neg at h
    exact hs (Bool.of_not_eq_false h.1)

theorem syncTurns_hasLast_mono (l : List FTurn) (s : FollowState)
    (hl : s.has_last = true) : (syncTurns s l).1.has_last = true := by
  induction l generalizing s with
  | nil => exact hl
  | cons t rest ih =>
    unfold syncTurns
    by_cases hm : t.turn_id ∈ s.seen
    · rw [if_pos hm]
      exact ih s hl
    · rw [if_neg hm]
      exact ih (recordTurn s t) (recordTurn_hasLast s t)

theorem syncTurns_out_hasLast (l : List FTurn) (s : FollowState)
    (h : (syncTurns s l).2 ≠ []) : (syncTurns s l).1.has_last = true := by
  induction l generalizing s with
  | nil => simp [syncTurns] at h
  | cons t rest ih =>
    unfold syncTurns at h ⊢
    by_cases hm : t.turn_id ∈ s.seen
    · rw [if_pos hm] at h ⊢
      exact ih s h
    · rw [if_neg hm]
      exact syncTurns_hasLast_mono rest (recordTurn s t) (recordTurn_hasLast s t)

theorem syncTurns_lastSeen_mono (l : List FTurn) (s : FollowState)
    (hl : s.has_last = true) :
    s.last_seen_depth ≤ (syncTurns s l).1.last_seen_depth := by
  induction l generalizing s with
  | nil => exact Nat.le_refl _
  | cons t rest ih =>
    unfold syncTurns
    by_cases hm : t.turn_id ∈ s.seen
    · rw [if_pos hm]
      exact ih s hl
    · rw [if_neg hm]
      exact Nat.le_trans (recordTurn_lastSeen_mono s t hl)
        (ih (recordTurn s t) (recordTurn_hasLast s t))

theorem syncTurns_lastSeen_le (l : List FTurn) (s : FollowState) (D : Nat)
    (hall : ∀ t ∈ l, t.depth ≤ D) (hs : s.has_last = true → s.last_seen_depth ≤ D) :
    (syncTurns s l).1.has_last = true → (syncTurns s l).1.last_seen_depth ≤ D := by
  induction l generalizing s with
  | nil => exact hs
  | cons t rest ih =>
    unfold syncTurns
    by_cases hm : t.turn_id ∈ s.seen
    · rw [if_pos hm]
      exact ih s (fun u hu => hall u (List.mem_cons_of_mem _ hu)) hs
    · rw [if_neg hm]
      refine ih (recordTurn s t) (fun u hu => hall u (List.mem_cons_of_mem _ hu)) ?_
      intro _
      exact recordTurn_lastSeen_le s t D (hall t (List.mem_cons_self _ _)) hs

theorem syncTurns_out_subset (l : List FTurn) (s : FollowState) (i : Nat)
    (h : i ∈ (syncTurns s l).2) : i ∈ l.map FTurn.turn_id := by
  induction l generalizing s with
  | nil => simp [syncTurns] at h
  | cons t rest ih =>
    unfold syncTurns at h
    by_cases hm : t.turn_id ∈ s.seen
    · rw [if_pos hm] at h
      exact List.mem_cons_of_mem _ (ih s h)
    · rw [if_neg hm] at h
      simp only [List.mem_cons] at h
      rcases h with h | h
      · simp [h]
      · exact List.mem_cons_of_mem _ (ih (recordTurn s t) h)

theorem syncTurns_emitted_depth_le : ∀ (l : List FTurn) (s : FollowState) (t : FTurn),
    (l.map FTurn.turn_id).Nodup → t ∈ l → t.turn_id ∈ (syncTurns s l).2 →
    t.depth ≤ (syncTurns s l).1.last_seen_depth := by
  intro l
  induction l with
  | nil => intro s t _ hmem _; cases hmem
  | cons u rest ih =>
    intro s t hnodup hmem hout
    have hnodup_rest : (rest.map FTurn.turn_id).Nodup := (List.nodup_cons.mp hnodup).2
    have hu_notin : u.turn_id ∉ rest.map FTurn.turn_id := (List.nodup_cons.mp hnodup).1
    unfold syncTurns at hout ⊢
    by_cases hm : u.turn_id ∈ s.seen
    · rw [if_pos hm] at hout ⊢
      rcases List.mem_cons.mp hmem with heq | hmem'
      · subst heq
        exact absurd (syncTurns_out_subset rest s t.turn_id hout) hu_notin
      · exact ih s t hnodup_rest hmem' hout
    · rw [if_neg hm] at hout ⊢
      rcases List.mem_cons.mp hmem with heq | hmem'
      · subst heq
        exact Nat.le_trans (recordTurn_lastSeen_ge s t)
          (syncTurns_lastSeen_mono rest (recordTurn s t) (recordTurn_hasLast s t))
      · simp only [List.mem_cons] at hout
        rcases hout with hid | hout'
        · have hmap : t.turn_id ∈ rest.map FTurn.turn_id :=
            List.mem_map.mpr ⟨t, hmem', rfl⟩
          rw [hid] at hmap
          exact absurd hmap hu_notin
        · exact ih (recordTurn s u) t hnodup_rest hmem' hout'

/-- Core of C6: after a batch over the trailing `M` turns that emitted
the head turn (with its id still in the seen set), a renewed
`sync_context` against the unchanged client emits nothing, reports no
error and leaves the state unchanged. -/
theorem follow_after_emit (c : FClient) (s₀ s₁ : FollowState) (out₁ : List Nat)
    (last : FTurn) (M : Nat)
    (hlast : c.turns.getLast? = some last)
    (hmono : ∀ t ∈ c.turns, t.depth ≤ last.depth)
    (hnodup : (c.turns.map FTurn.turn_id).Nodup)
    (hbound : s₀.has_last = true → s₀.last_seen_depth ≤ last.depth)
    (hsync : syncTurns s₀ (FClient.getLastTurns c M) = (s₁, out₁))
    (hemit : last.turn_id ∈ out₁)
    (hseen : last.turn_id ∈ s₁.seen) :
    syncContext c s₁ = .ok (s₁, []) := by
  have hhead : FClient.getHead c =
      { context_id := c.context_id, head_turn_id := last.turn_id,
        head_depth := last.depth } := by
    unfold FClient.getHead
    rw [hlast]
  set L := FClient.getLastTurns c M with hL
  have hs1 : s₁ = (syncTurns s₀ L).1 := by rw [hsync]
  have hout1 : out₁ = (syncTurns s₀ L).2 := by rw [hsync]
  rw [hout1] at hemit
  have hLsub : ∀ t ∈ L, t ∈ c.turns := by
    intro t ht
    rw [hL] at ht
    exact List.drop_subset _ _ ht
  have hLnodup : (L.map FTurn.turn_id).Nodup := by
    refine List.Nodup.sublist (List.Sublist.map _ ?_) hnodup
    rw [hL]
    exact List.drop_sublist _ _
  have hlastmem : last ∈ c.turns := by
    obtain ⟨hne, heq⟩ := List.mem_getLast?_eq_getLast (Option.mem_def.mpr hlast)
    rw [heq]
    exact List.getLast_mem hne
  obtain ⟨u, huL, huid⟩ := List.mem_map.mp (syncTurns_out_subset L s₀ _ hemit)
  have hulast : u = last :=
    List.inj_on_of_nodup_map hnodup (hLsub u huL) hlastmem huid
  rw [hulast] at huL
  have hlower : last.depth ≤ s₁.last_seen_depth := by
    rw [hs1]
    exact syncTurns_emitted_depth_le L s₀ last hLnodup huL hemit
  have hhl1 : s₁.has_last = true := by
    rw [hs1]
    exact syncTurns_out_hasLast L s₀ (List.ne_nil_of_mem hemit)
  have hupper : s₁.last_seen_depth ≤ last.depth := by
    rw [hs1]
    exact syncTurns_lastSeen_le L s₀ last.depth (fun t ht => hmono t (hLsub t ht)) hbound
      (by rw [← hs1]; exact hhl1)
  have heqd : s₁.last_seen_depth = last.depth := Nat.le_antisymm hupper hlower
  simp only [syncContext, hhead]
  rw [if_neg (fun hc => absurd hc.2 (by rw [heqd]; exact Nat.lt_irrefl _))]
  rw [if_pos (⟨hhl1, List.ne_nil_of_mem hseen⟩ : s₁.has_last = true ∧ s₁.seen ≠ [])]
  rw [heqd, Nat.sub_self]
  rw [if_pos rfl]

/-- C6: at-most-once delivery in the follow reconciler.  For a context
whose authoritative chain ends in turn `last` (depths not exceeding the
head's, turn ids unique), if one `sync_context` call emitted `last` and
its id is still within the bounded seen set afterwards, then delivering
the same `TurnAppended` event again — a second `sync_context` against
the unchanged client — emits no turn, reports no error, and leaves the
follow state unchanged. -/
theorem follow_second_delivery_no_emit (c : FClient) (s₀ s₁ : FollowState)
    (out₁ : List Nat) (last : FTurn)
    (hlast : c.turns.getLast? = some last)
    (hmono : ∀ t ∈ c.turns, t.depth ≤ last.depth)
    (hnodup : (c.turns.map FTurn.turn_id).Nodup)
    (h1 : syncContext c s₀ = .ok (s₁, out₁))
    (hemit : last.turn_id ∈ out₁)
    (hseen : last.turn_id ∈ s₁.seen) :
    syncContext c s₁ = .ok (s₁, []) := by
  have hhead : FClient.getHead c =
      { context_id := c.context_id, head_turn_id := last.turn_id,
        head_depth := last.depth } := by
    unfold FClient.getHead
    rw [hlast]
  simp only [syncContext, hhead] at h1
  split at h1
  · cases h1
  · rename_i hreg
    have hbound : s₀.has_last = true → s₀.last_seen_depth ≤ last.depth :=
      fun hl0 => Nat.le_of_not_lt (fun hlt => hreg ⟨hl0, hlt⟩)
    split at h1 <;> split at h1
    · -- missing = 0 branch: nothing is emitted, contradicting hemit
      have hout : out₁ = [] := (congrArg Prod.snd (Except.ok.inj h1)).symm
      rw [hout] at hemit
      cases hemit
    · have hpair := Except.ok.inj h1
      exact follow_after_emit c s₀ s₁ out₁ last _ hlast hmono hnodup hbound
        (Prod.ext (congrArg Prod.fst hpair) (congrArg Prod.snd hpair)) hemit hseen
    · have hout : out₁ = [] := (congrArg Prod.snd (Except.ok.inj h1)).symm
      rw [hout] at hemit
      cases hemit
    · have hpair := Except.ok.inj h1
      exact follow_after_emit c s₀ s₁ out₁ last _ hlast hmono hnodup hbound
        (Prod.ext (congrArg Prod.fst hpair) (congrArg Prod.snd hpair)) hemit hseen

/-- The S6 client: context 1 with chain `[1, 2, 3]` at depths
`[0, 1, 2]`. -/
def c6Client : FClient :=
  { context_id := 1,
    turns := [{ turn_id := 1, parent_id := 0, depth := 0 },
              { turn_id := 2, parent_id := 1, depth := 1 },
              { turn_id := 3, parent_id := 2, depth := 2 }] }

def c6State0 : FollowState := FollowState.new 2048

/-- State and output of the first delivery for turn 3. -/
def c6Pair : FollowState × List Nat :=
  match syncContext c6Client c6State0 with
  | .ok p => p
  | .error _ => (c6State0, [])

theorem follow_second_delivery_no_emit_witness :
    c6Client.turns.getLast? = some { turn_id := 3, parent_id := 2, depth := 2 } ∧
    syncContext c6Client c6State0 = .ok (c6Pair.1, c6Pair.2) ∧
    (3 : Nat) ∈ c6Pair.2 ∧ (3 : Nat) ∈ c6Pair.1.seen ∧
    syncContext c6Client c6Pair.1 = .ok (c6Pair.1, []) :=
  ⟨by decide, by decide, by decide, by decide,
   follow_second_delivery_no_emit c6Client c6State0 c6Pair.1 c6Pair.2
     { turn_id := 3, parent_id := 2, depth := 2 }
     (by decide) (by decide) (by decide) (by decide) (by decide) (by decide)⟩

/-! ## Event-stream decoder (`src/clients/rust/src/subscribe.rs`)

`read_event_stream` consumes a byte stream through `BufRead::read_line`;
the stream is a `List Char`, `readLine` returns one chunk up to and
including a newline (or the unterminated final chunk), and the parser
loop runs over the resulting chunk list.  The emit callback is the
always-eventually-successful channel send, modelled as collecting the
events in order. -/

def readLine : List Char → List Char × List Char
  | [] => ([], [])
  | c :: rest =>
    if c = '\n' then ([c], rest)
    else
      let r := readLine rest
      (c :: r.1, r.2)

theorem readLine_snd_le : ∀ s : List Char, (readLine s).2.length ≤ s.length := by
  intro s
  induction s with
  | nil => simp [readLine]
  | cons c rest ih =>
    unfold readLine
    by_cases h : c = '\n'
    · rw [if_pos h]
      simp
    · rw [if_neg h]
      simp only [List.length_cons]
      exact Nat.le_succ_of_le ih

theorem readLine_snd_lt (c : Char) (t : List Char) :
    ((readLine (c :: t)).2).length < (c :: t).length := by
  unfold readLine
  by_cases h : c = '\n'
  · rw [if_pos h]
    simp
  · rw [if_neg h]
    simp only [List.length_cons]
    exact Nat.lt_succ_of_le (readLine_snd_le t)

/-- The sequence of `read_line` results for a byte stream, with the
stream length as (sufficient) recursion fuel so the definition reduces
computationally. -/
def readLinesFuel : Nat → List Char → List (List Char)
  | 0, _ => []
  | _, [] => []
  | fuel + 1, c :: rest =>
    (readLine (c :: rest)).1 :: readLinesFuel fuel (readLine (c :: rest)).2

def readLines (s : List Char) : List (List Char) := readLinesFuel s.length s

structure SEvent where
  event_type : List Char
  data : List Char
  id : List Char
deriving DecidableEq, Repr

inductive SubErr where
  | cancelled
  | timeout
  | eofErr
  | otherErr (msg : String)
deriving DecidableEq, Repr

/-- Accumulation state of the parser loop: `event_type`, the collected
`data` lines, the last `id`, and the running data size. -/
structure ParserSt where
  event_type : List Char
  data_lines : List (List Char)
  last_id : List Char
  data_size : Nat
deriving DecidableEq, Repr

def ParserSt.initial : ParserSt :=
  { event_type := [], data_lines := [], last_id := [], data_size := 0 }

/-- `flush_event`: emit nothing when nothing accumulated or the joined
data is empty; otherwise emit the event (type defaulting to `message`,
data lines joined with newlines) and reset the state. -/
def flushEvent (st : ParserSt) : Option SEvent × ParserSt :=
  if st.data_lines = [] ∧ st.event_type = [] ∧ st.last_id = [] then (none, ParserSt.initial)
  else
    let data := List.intercalate ['\n'] st.data_lines
    if data = [] then (none, ParserSt.initial)
    else
      let etype := if st.event_type = [] then "message".toList else st.event_type
      (some { event_type := etype, data := data, id := st.last_id }, ParserSt.initial)

/-- `line.trim_end_matches(['\r', '\n'])`. -/
def trimEndCRLF (l : List Char) : List Char :=
  (l.reverse.dropWhile (fun c => c == '\r' || c == '\n')).reverse

/-- `line.split_once(':')`. -/
def splitOnceColon : List Char → Option (List Char × List Char)
  | [] => none
  | c :: rest =>
    if c = ':' then some ([], rest)
    else
      match splitOnceColon rest with
      | some p => some (c :: p.1, p.2)
      | none => none

/-- `value.strip_prefix(' ')`. -/
def stripSp : List Char → List Char
  | [] => []
  | c :: rest => if c = ' ' then rest else c :: rest

/-- The loop of `read_event_stream` over the `read_line` chunks.  A
chunk without a trailing newline is the unterminated final line (EOF
hit mid-line); exhausting the chunks is `read_line` returning 0 bytes.
Returns the events emitted and the terminating error. -/
def goLines (maxEventBytes : Nat) : ParserSt → List (List Char) → List SEvent × SubErr
  | _, [] => ([], .eofErr)
  | st, line0 :: rest =>
    let eofFlag := line0.getLast? ≠ some '\n'
    let line := trimEndCRLF line0
    if line = [] then
      let fl := flushEvent st
      let emitted := match fl.1 with | some e => [e] | none => []
      if eofFlag then (emitted, .eofErr)
      else
        let r := goLines maxEventBytes fl.2 rest
        (emitted ++ r.1, r.2)
    else if line.head? = some ':' then
      if eofFlag then ([], .eofErr)
      else goLines maxEventBytes st rest
    else
      let fv :=
        match splitOnceColon line with
        | some p => p
        | none => (line, [])
      if fv.1 = [] ∨ fv.1.any (fun ch => ch == ' ' || ch == '\t') then
        ([], .otherErr "malformed field")
      else
        let value := stripSp fv.2
        let stepE : Except (List SEvent × SubErr) ParserSt :=
          if fv.1 = "event".toList then .ok { st with event_type := value }
          else if fv.1 = "data".toList then
            let st1 := { st with data_lines := st.data_lines ++ [value],
                                 data_size := st.data_size + value.length }
            if 0 < maxEventBytes ∧ maxEventBytes < st1.data_size then
              .error ([], .otherErr "event exceeds max size")
            else .ok st1
          else if fv.1 = "id".toList then .ok { st with last_id := value }
          else .ok st
        match stepE with
        | .error out => out
        | .ok st1 =>
          if eofFlag then
            let fl := flushEvent st1
            ((match fl.1 with | some e => [e] | none => []), .eofErr)
          else goLines maxEventBytes st1 rest

def DEFAULT_MAX_EVENT_BYTES : Nat := 2 * 1024 * 1024

/-- `read_event_stream`: run the parser loop over the stream. -/
def readEventStream (maxEventBytes : Nat) (stream : List Char) : List SEvent × SubErr :=
  goLines maxEventBytes ParserSt.initial (readLines stream)

/-- C7 counterexample to the claim as stated: the stream `"data: x\n"`
ends with a trailing data line — accumulated into the pending event —
and no final blank line, yet the parser reports EOF without emitting
anything: the flush-at-EOF only happens when the final line is not
newline-terminated.  With a blank line appended, the same data line is
flushed as a `message` event, showing it had been accumulated. -/
theorem trailing_data_line_not_flushed :
    readEventStream DEFAULT_MAX_EVENT_BYTES ("data: x\n".toList) = ([], .eofErr) ∧
    readEventStream DEFAULT_MAX_EVENT_BYTES ("data: x\n\n".toList) =
      ([{ event_type := "message".toList, data := "x".toList, id := [] }], .eofErr) := by
  decide

theorem trimEndCRLF_of_getLast (l : List Char) (c : Char)
    (hlast : l.getLast? = some c) (hr : c ≠ '\r') (hn : c ≠ '\n') :
    trimEndCRLF l = l := by
  have hhead : l.reverse.head? = some c := by
    rw [List.head?_reverse]
    exact hlast
  obtain ⟨t, ht⟩ : ∃ t, l.reverse = c :: t := by
    cases hrev : l.reverse with
    | nil => rw [hrev] at hhead; cases hhead
    | cons x xs =>
      rw [hrev] at hhead
      simp only [List.head?_cons, Option.some.injEq] at hhead
      exact ⟨xs, by rw [hhead]⟩
  unfold trimEndCRLF
  rw [ht, List.dropWhile_cons]
  have hpred : (c == '\r' || c == '\n') = false := by
    simp [hr, hn]
  rw [hpred]
  simp only [Bool.false_eq_true, if_false]
  rw [← ht, List.reverse_reverse]

theorem readLine_no_newline (s : List Char) (h : ∀ ch ∈ s, ch ≠ '\n') :
    readLine s = (s, []) := by
  induction s with
  | nil => rfl
  | cons c rest ih =>
    unfold readLine
    rw [if_neg (h c (List.mem_cons_self _ _))]
    rw [ih (fun ch hm => h ch (List.mem_cons_of_mem _ hm))]

theorem readLines_single (s : List Char) (hne : s ≠ []) (h : ∀ ch ∈ s, ch ≠ '\n') :
    readLines s = [s] := by
  cases s with
  | nil => exact absurd rfl hne
  | cons c rest =>
    unfold readLines readLinesFuel
    simp only [List.length_cons]
    rw [readLine_no_newline (c :: rest) h]
    cases rest.length <;> rfl

theorem intercalate_concat_ne_nil (xs : List (List Char)) (w : List Char) (hw : w ≠ []) :
    List.intercalate ['\n'] (xs ++ [w]) ≠ [] := by
  cases xs with
  | nil => simpa [List.intercalate, List.intersperse] using hw
  | cons x rest =>
    cases h : rest ++ [w] with
    | nil => exact absurd h (by simp)
    | cons y t =>
      rw [List.cons_append, h]
      simp [List.intercalate, List.intersperse]

/-- C7 (amended): when the stream reaches EOF in the middle of a data
line — the final line is not newline-terminated — the parser flushes
the event accumulated so far (data lines joined with newlines, type
defaulting to `message`) before reporting EOF.  `st` is the
accumulation state built from the preceding complete lines and `v` the
unterminated tail of the final `data:` line. -/
theorem unterminated_data_line_flushes (maxEventBytes : Nat) (st : ParserSt)
    (v : List Char)
    (hv : ∀ ch ∈ v, ch ≠ '\n' ∧ ch ≠ '\r')
    (hsize : ¬(0 < maxEventBytes ∧
      maxEventBytes < st.data_size + (stripSp v).length))
    (hnz : stripSp v ≠ []) :
    goLines maxEventBytes st [('d' :: 'a' :: 't' :: 'a' :: ':' :: v)] =
      ([{ event_type := if st.event_type = [] then "message".toList else st.event_type,
          data := List.intercalate ['\n'] (st.data_lines ++ [stripSp v]),
          id := st.last_id }], .eofErr) := by
  have hvne : v ≠ [] := by
    intro h
    rw [h] at hnz
    exact hnz rfl
  obtain ⟨c, hc, hcm⟩ : ∃ c, v.getLast? = some c ∧ c ∈ v := by
    refine ⟨v.getLast hvne, List.getLast?_eq_getLast_of_ne_nil hvne, List.getLast_mem hvne⟩
  have hlastl : ('d' :: 'a' :: 't' :: 'a' :: ':' :: v).getLast? = some c := by
    rw [show ('d' :: 'a' :: 't' :: 'a' :: ':' :: v) = ['d', 'a', 't', 'a', ':'] ++ v from rfl]
    rw [List.getLast?_append_of_ne_nil _ hvne]
    exact hc
  have heof : ('d' :: 'a' :: 't' :: 'a' :: ':' :: v).getLast? ≠ some '\n' := by
    rw [hlastl]
    intro h
    exact (hv c hcm).1 (Option.some.inj h)
  have htrim : trimEndCRLF ('d' :: 'a' :: 't' :: 'a' :: ':' :: v) =
      'd' :: 'a' :: 't' :: 'a' :: ':' :: v :=
    trimEndCRLF_of_getLast _ c hlastl (hv c hcm).2 (hv c hcm).1
  have hsplit : splitOnceColon ('d' :: 'a' :: 't' :: 'a' :: ':' :: v) =
      some ("data".toList, v) := rfl
  simp only [goLines]
  rw [htrim]
  rw [hsplit]
  simp only [List.head?_cons]
  rw [if_neg (by simp : ¬('d' :: 'a' :: 't' :: 'a' :: ':' :: v = []))]
  rw [if_neg (by decide : ¬(some 'd' = some ':'))]
  rw [if_neg (by decide :
    ¬("data".toList = ([] : List Char) ∨
      "data".toList.any (fun ch => ch == ' ' || ch == '\t') = true))]
  rw [if_neg (by decide : ¬("data".toList = "event".toList))]
  simp only [if_true]
  rw [if_neg hsize]
  dsimp only
  rw [if_pos heof]
  unfold flushEvent
  rw [if_neg (by simp : ¬(st.data_lines ++ [stripSp v] = [] ∧ st.event_type = [] ∧
    st.last_id = []))]
  rw [if_neg (intercalate_concat_ne_nil st.data_lines (stripSp v) hnz)]

theorem unterminated_data_line_flushes_witness :
    (∀ ch ∈ (" x".toList : List Char), ch ≠ '\n' ∧ ch ≠ '\r') ∧
    ¬(0 < DEFAULT_MAX_EVENT_BYTES ∧
      DEFAULT_MAX_EVENT_BYTES < ParserSt.initial.data_size + (stripSp " x".toList).length) ∧
    stripSp " x".toList ≠ [] ∧
    goLines DEFAULT_MAX_EVENT_BYTES ParserSt.initial
        [('d' :: 'a' :: 't' :: 'a' :: ':' :: " x".toList)] =
      ([{ event_type := if ParserSt.initial.event_type = [] then "message".toList
            else ParserSt.initial.event_type,
          data := List.intercalate ['\n'] (ParserSt.initial.data_lines ++ [stripSp " x".toList]),
          id := ParserSt.initial.last_id }], .eofErr) :=
  ⟨by decide, by decide, by decide,
   unterminated_data_line_flushes DEFAULT_MAX_EVENT_BYTES ParserSt.initial " x".toList
     (by decide) (by decide) (by decide)⟩

/-! ## Subscriber reconnect loop (`subscribe_events` worker and
`next_retry_delay`)

Delays are milliseconds as `Nat`.  One worker iteration runs
`subscribe_once`; its outcome is either a failed connection attempt, a
connection that was established and whose stream then ended (the only
way an established stream finishes — `read_event_stream` always
returns an error, EOF included), or a cancellation/deadline stop.  The
worker's observable behaviour for the claim is the sequence of sleep
durations between attempts. -/

inductive AttemptOutcome where
  /-- `subscribe_once` failed before the stream was established. -/
  | connectFailed
  /-- A successful reconnect: the stream was established, ran, and
  ended (connection close, remote EOF, or non-cancellation error). -/
  | streamEnded
  | cancelled
  | timedOut
deriving DecidableEq, Repr

def DEFAULT_RETRY_DELAY : Nat := 500

/-- `next_retry_delay`: double, capped at the configured maximum;
a nonpositive current delay restarts from the default. -/
def nextRetryDelay (current maxDelay : Nat) : Nat :=
  if current = 0 then DEFAULT_RETRY_DELAY
  else
    let next := current * 2
    if 0 < maxDelay ∧ maxDelay < next then maxDelay else next

/-- The sleep durations of the `subscribe_events` worker loop across
the given attempt outcomes: after every non-cancellation outcome the
worker clamps the current delay (to the default when zero, to the
maximum when above it), sleeps it, advances the delay with
`next_retry_delay`, and retries; cancellation or deadline expiry stops
the worker.  No branch of the loop ever resets the delay to the
initial value. -/
def workerSleeps (maxDelay : Nat) : Nat → List AttemptOutcome → List Nat
  | _, [] => []
  | delay, outcome :: rest =>
    match outcome with
    | .cancelled => []
    | .timedOut => []
    | _ =>
      let d1 := if delay = 0 then DEFAULT_RETRY_DELAY else delay
      let d2 := if 0 < maxDelay ∧ maxDelay < d1 then maxDelay else d1
      d2 :: workerSleeps maxDelay (nextRetryDelay d2 maxDelay) rest

/-- C8 counterexample to the claim as stated: with the default initial
delay (500 ms) and maximum (10 s), three successful reconnects in a row
— each stream established and then ended — sleep 500, 1000 and 2000 ms.
Were the delay reset to the initial value on each successful reconnect,
the second and third sleeps would be 500 ms again; the worker never
resets it. -/
theorem reconnect_delay_not_reset :
    workerSleeps 10000 500 [.streamEnded, .streamEnded, .streamEnded] =
      [500, 1000, 2000] ∧
    (2000 : Nat) ≠ 500 := by
  decide

theorem nextRetryDelay_pos_eq (d maxDelay : Nat) (hd : 0 < d) (hmax : 0 < maxDelay) :
    nextRetryDelay d maxDelay = min (d * 2) maxDelay := by
  unfold nextRetryDelay
  rw [if_neg (Nat.pos_iff_ne_zero.mp hd)]
  by_cases h : maxDelay < d * 2
  · rw [if_pos ⟨hmax, h⟩]
    exact (Nat.min_eq_right (Nat.le_of_lt h)).symm
  · rw [if_neg (fun hc => h hc.2)]
    exact (Nat.min_eq_left (Nat.le_of_not_lt h)).symm

/-- C8 (amended): after every stream end the worker sleeps for the
current retry delay and then retries, and on each retry the delay
doubles, capped at the configured maximum — including across successful
reconnects: the k-th sleep is `min (initial * 2 ^ k) max`, and the
delay is never reset to the initial value by a successful reconnect. -/
theorem reconnect_delay_doubles_capped (maxDelay init n k : Nat)
    (hinit : 0 < init) (hle : init ≤ maxDelay) (hk : k < n) :
    (workerSleeps maxDelay init (List.replicate n .streamEnded)).get? k =
      some (min (init * 2 ^ k) maxDelay) := by
  induction n generalizing k init with
  | zero => cases hk
  | succ m ih =>
    have hmax : 0 < maxDelay := Nat.lt_of_lt_of_le hinit hle
    have hstep : workerSleeps maxDelay init (List.replicate (m + 1) .streamEnded) =
        init :: workerSleeps maxDelay (nextRetryDelay init maxDelay)
          (List.replicate m .streamEnded) := by
      simp only [List.replicate_succ, workerSleeps]
      rw [if_neg (Nat.pos_iff_ne_zero.mp hinit)]
      rw [if_neg (fun hc => Nat.lt_irrefl _ (Nat.lt_of_lt_of_le hc.2 hle))]
    rw [hstep]
    cases k with
    | zero =>
      simp only [List.get?_cons_zero, Option.some.injEq]
      rw [Nat.pow_zero, Nat.mul_one]
      exact (Nat.min_eq_left hle).symm
    | succ j =>
      simp only [List.get?_cons_succ]
      rw [nextRetryDelay_pos_eq init maxDelay hinit hmax]
      have hpos : 0 < min (init * 2) maxDelay :=
        Nat.lt_min.mpr ⟨Nat.mul_pos hinit (by decide), hmax⟩
      have hle2 : min (init * 2) maxDelay ≤ maxDelay := Nat.min_le_right _ _
      rw [ih (min (init * 2) maxDelay) j hpos hle2 (Nat.lt_of_succ_lt_succ hk)]
      congr 1
      by_cases h : init * 2 ≤ maxDelay
      · rw [Nat.min_eq_left h]
        rw [Nat.pow_succ]
        congr 1
        rw [Nat.mul_comm (2 ^ j) 2, ← Nat.mul_assoc]
      · push_neg at h
        rw [Nat.min_eq_right (Nat.le_of_lt h)]
        have h1 : maxDelay ≤ maxDelay * 2 ^ j :=
          Nat.le_mul_of_pos_right _ (Nat.pos_pow_of_pos _ (by decide))
        rw [Nat.min_eq_right h1]
        have h2 : maxDelay ≤ init * 2 ^ (j + 1) := by
          calc maxDelay ≤ init * 2 := Nat.le_of_lt h
          _ ≤ init * 2 ^ (j + 1) := by
            rw [Nat.pow_succ]
            rw [Nat.mul_comm (2 ^ j) 2, ← Nat.mul_assoc]
            exact Nat.le_mul_of_pos_right _ (Nat.pos_pow_of_pos _ (by decide))
        rw [Nat.min_eq_right h2]

theorem reconnect_delay_doubles_capped_witness :
    (0 : Nat) < 500 ∧ (500 : Nat) ≤ 10000 ∧ (2 : Nat) < 3 ∧
    (workerSleeps 10000 500 (List.replicate 3 .streamEnded)).get? 2 =
      some (min (500 * 2 ^ 2) 10000) :=
  ⟨by decide, by decide, by decide,
   reconnect_delay_doubles_capped 10000 500 3 2 (by decide) (by decide) (by decide)⟩

end Cxdb
